import Mathlib

/-
  Verification of the Halali rules engine (src/halali/game.py).

  The Python engine is shallowly embedded: the mutable `Halali` object becomes
  a Lean structure, each method becomes a function from the state to a result
  paired with the state at the moment the method returns or raises.  Python
  exceptions are modelled with an explicit error type: the typed `InvalidMove`
  error carries its reason string, and the untyped exceptions that the code can
  raise (IndexError from list subscripts, TypeError from using the unhashable
  `both` sentinel as a dict key, KeyError from a missing dict key) get their
  own constructors.  List subscripts follow Python semantics: indices in
  [0, len) address directly, indices in [-len, 0) wrap from the end, anything
  else raises IndexError.
-/

/-- The two concrete teams, the values of the strings "humans"/"animals". -/
inductive Team
  | humans
  | animals
deriving DecidableEq, Repr

/-- The dict {"humans": "animals", "animals": "humans"} used by validate_move. -/
def Team.other : Team → Team
  | .humans => .animals
  | .animals => .humans

/-- String form of a team, used in error messages. -/
def Team.str : Team → String
  | .humans => "humans"
  | .animals => "animals"

/-- The value of `self.team`: either a concrete team string or the `both`
sentinel object, whose `__eq__` returns True for either team string.  The
sentinel defines `__eq__` without `__hash__`, so it is unhashable: using it as
a dict key raises TypeError. -/
inductive TeamSel
  | ofTeam (t : Team)
  | both
deriving DecidableEq, Repr

/-- Python equality `team_value == team_string`: a concrete team compares by
string equality, the `both` sentinel compares equal to both team strings. -/
def TeamSel.matches : TeamSel → Team → Bool
  | .ofTeam t, t' => t = t'
  | .both, _ => true

/-- The seven piece kinds of the CARD_TYPES catalogue. -/
inductive Kind
  | fox
  | bear
  | duck
  | pheasant
  | hunter
  | lumberjack
  | tree
deriving DecidableEq, Repr

/-- The kind identifier string, used in error messages. -/
def Kind.str : Kind → String
  | .fox => "fox"
  | .bear => "bear"
  | .duck => "duck"
  | .pheasant => "pheasant"
  | .hunter => "hunter"
  | .lumberjack => "lumberjack"
  | .tree => "tree"

instance : Fintype Kind :=
  ⟨⟨{.fox, .bear, .duck, .pheasant, .hunter, .lumberjack, .tree}, by decide⟩,
    fun k => by cases k <;> decide⟩

/-- CARD_TYPES[kind]["count"]. -/
def Kind.count : Kind → Nat
  | .fox => 6
  | .bear => 2
  | .duck => 7
  | .pheasant => 8
  | .hunter => 8
  | .lumberjack => 2
  | .tree => 15

/-- CARD_TYPES[kind].get("team"): the owning team, or None for neutral kinds. -/
def Kind.teamOf : Kind → Option Team
  | .fox => some .animals
  | .bear => some .animals
  | .duck => none
  | .pheasant => none
  | .hunter => some .humans
  | .lumberjack => some .humans
  | .tree => none

/-- CARD_TYPES[kind]["points"]. -/
def Kind.points : Kind → Int
  | .fox => 5
  | .bear => 10
  | .duck => 2
  | .pheasant => 3
  | .hunter => 5
  | .lumberjack => 5
  | .tree => 2

/-- CARD_TYPES[kind].get("eats", []). -/
def Kind.eats : Kind → List Kind
  | .fox => [.duck, .pheasant]
  | .bear => [.hunter, .lumberjack]
  | .hunter => [.duck, .pheasant, .fox, .bear]
  | .lumberjack => [.tree]
  | _ => []

/-- CARD_TYPES[kind].get("slow"): truthy exactly for bear and lumberjack. -/
def Kind.slow : Kind → Bool
  | .bear => true
  | .lumberjack => true
  | _ => false

/-- CARD_TYPES[kind].get("immovable"): truthy exactly for tree. -/
def Kind.immovable : Kind → Bool
  | .tree => true
  | _ => false

/-- CARD_TYPES[kind].get("variants", []). -/
def Kind.variantsOf : Kind → List String
  | .hunter => ["up", "down", "left", "right"]
  | .tree => ["oak", "spruce"]
  | _ => []

/-- CARD_TYPES[kind].get("directional"): truthy exactly for hunter. -/
def Kind.directionalOf : Kind → Bool
  | .hunter => true
  | _ => false

/-- Membership in MOVABLE_FOR[team], the set built at import time: immovable
kinds belong to neither team's set, team-owned kinds only to their owner's
set, kinds with no team to both sets. -/
def MOVABLE_FOR (team : Team) (k : Kind) : Bool :=
  !k.immovable &&
    (match k.teamOf with
     | some t => t = team
     | none => true)

/-- The facing of a placed card: the strings "down" / "up". -/
inductive Facing
  | down
  | up
deriving DecidableEq, Repr

/-- A card dict as built by the Halali constructor: `kind` and `facing` are
always present, `variant` is present when the kind has variants, and the
`directional` key is present (set to True) when the kind is directional. -/
structure Card where
  kind : Kind
  facing : Facing
  variant : Option String := none
  directional : Bool := false
deriving DecidableEq, Repr

/-- Exceptions the engine can raise.  `invalidMove` is the typed, recoverable
game error; the others model Python's untyped exceptions. -/
inductive Err
  | invalidMove (reason : String)
  | indexError
  | typeError
  | keyError
deriving DecidableEq, Repr

/-- self.cards: a list of columns, each a list of Optional cards; the source
indexes it as cards[x][y]. -/
abbrev Grid := List (List (Option Card))

/-- N_ROWS_AND_COLS. -/
def N_ROWS_AND_COLS : Int := 7

/-- Python list index resolution for a list of length `n`: indices in [0, n)
address directly, indices in [-n, 0) wrap from the end, anything else is an
IndexError (signalled by `none`). -/
def pyIdx (n : Nat) (i : Int) : Option Nat :=
  if 0 ≤ i ∧ i < (n : Int) then some i.toNat
  else if -(n : Int) ≤ i ∧ i < 0 then some (i + (n : Int)).toNat
  else none

/-- Python subscript `l[i]`. -/
def pyGet {α : Type} (l : List α) (i : Int) : Except Err α :=
  match pyIdx l.length i with
  | some j =>
    match l.get? j with
    | some a => .ok a
    | none => .error .indexError
  | none => .error .indexError

/-- `self.cards[x][y]`: read a cell, propagating IndexError. -/
def getCell (g : Grid) (x y : Int) : Except Err (Option Card) := do
  let row ← pyGet g x
  pyGet row y

/-- Python subscript assignment `l[i] = a` (no-op when out of range; the
engine only assigns at indices it has already read successfully). -/
def pySet {α : Type} (l : List α) (i : Int) (a : α) : List α :=
  match pyIdx l.length i with
  | some j => l.set j a
  | none => l

/-- `self.cards[x][y] = c`. -/
def setCell (g : Grid) (x y : Int) (c : Option Card) : Grid :=
  match pyIdx g.length x with
  | some j =>
    match g.get? j with
    | some row => g.set j (pySet row y c)
    | none => g
  | none => g

/-- Physical cell access at already-resolved list positions. -/
def cellAtP (g : Grid) (i j : Nat) : Option Card :=
  ((g.get? i).bind fun row => row.get? j).join

/-- Total cell accessor for in-range non-negative coordinates; used to state
specifications.  For 0 ≤ x, y < 7 on a 7×7 grid it agrees with `getCell`. -/
def cellAt (g : Grid) (x y : Int) : Option Card :=
  cellAtP g x.toNat y.toNat

/-- The integers produced by Python's range(a, b). -/
def intRange (a b : Int) : List Int :=
  (List.range (b - a).toNat).map fun k => a + Int.ofNat k

/-- The "for inbetween in range(...)" obstruction loop of validate_move: read
each listed cell, raising "Path obstructed" at the first occupied one and
propagating IndexError from the reads. -/
def checkClear (g : Grid) : List (Int × Int) → Except Err Unit
  | [] => .ok ()
  | (x, y) :: rest =>
    match getCell g x y with
    | .error e => .error e
    | .ok (some _) => .error (.invalidMove "Path obstructed")
    | .ok none => checkClear g rest

/-- The mutable state of a `Halali` rules-engine instance.  `points` is split
into its two dict entries; `_tiles_left` is the `tiles_left` field; the
half-turn budget `turns_left` is a rational (the source decrements a float by
0.5, always keeping a multiple of one half). -/
structure Halali where
  to_play : Team
  team : TeamSel
  cards : Grid
  points_humans : Int
  points_animals : Int
  turns_left : Option ℚ
  tiles_left : Int
deriving DecidableEq, Repr

/-- self.points[team]. -/
def Halali.getPoints (s : Halali) (t : Team) : Int :=
  match t with
  | .humans => s.points_humans
  | .animals => s.points_animals

/-- self.points[team] += p. -/
def Halali.addPoints (s : Halali) (t : Team) (p : Int) : Halali :=
  match t with
  | .humans => { s with points_humans := s.points_humans + p }
  | .animals => { s with points_animals := s.points_animals + p }

/-- The can_play property: `self.to_play == self.team`. -/
def Halali.can_play (s : Halali) : Bool :=
  s.team.matches s.to_play

/-- check_can_play. -/
def Halali.check_can_play (s : Halali) (for_enemy : Bool) : Except Err Unit :=
  if for_enemy then
    if s.can_play then .error (.invalidMove "Not other player's turn!") else .ok ()
  else
    if !s.can_play then .error (.invalidMove "Not your turn!") else .ok ()

/-- validate_reveal (its for_enemy parameter is unused in the source). -/
def Halali.validate_reveal (s : Halali) (card_x card_y : Int) (for_enemy : Bool) :
    Except Err Unit :=
  match getCell s.cards card_x card_y with
  | .error e => .error e
  | .ok none => .error (.invalidMove "Can't reveal empty spot")
  | .ok (some card) =>
    if card.facing = .up then .error (.invalidMove "Can't reveal face-up card")
    else
      have := for_enemy
      .ok ()

/-- The part of validate_move from `card = self.cards[card_x][card_y]` on:
source-card checks, then destination checks.  `team` is the acting team
computed earlier (still possibly the `both` sentinel, whose use as a dict key
in MOVABLE_FOR[team] raises TypeError); `moving` is the direction string set
by the branch that ran; `dist` is `bigger - smaller` from that branch. -/
def validate_move_tail (g : Grid) (card_x card_y target_x target_y : Int)
    (team : TeamSel) (moving : String) (dist : Int) : Except Err Unit :=
  match getCell g card_x card_y with
  | .error e => .error e
  | .ok none => .error (.invalidMove "Can't move empty tile")
  | .ok (some card) =>
    if card.kind.slow ∧ 1 < dist then
      .error (.invalidMove (card.kind.str ++ " can only move one tile"))
    else if card.kind.immovable then
      .error (.invalidMove (card.kind.str ++ " can't move"))
    else
      match team with
      | .both => .error .typeError
      | .ofTeam tm =>
        if ¬ MOVABLE_FOR tm card.kind then
          .error (.invalidMove ("Team " ++ tm.str ++ " can't move " ++ card.kind.str))
        else if card.facing ≠ .up then
          .error (.invalidMove "Can't move face-down card.")
        else
          match getCell g target_x target_y with
          | .error e => .error e
          | .ok none => .ok ()
          | .ok (some target) =>
            if target.facing ≠ .up then
              .error (.invalidMove "Can't go to face-down card.")
            else if ¬ target.kind ∈ card.kind.eats then
              .error (.invalidMove (card.kind.str ++ " can't eat " ++ target.kind.str))
            else if card.directional then
              match card.variant with
              | none => .error .keyError
              | some v =>
                if moving ≠ v then
                  .error (.invalidMove (card.kind.str ++ " can only kill " ++ v))
                else .ok ()
            else .ok ()

/-- validate_move.  The acting team is `self.team` for a local operation and
`{"humans": "animals", "animals": "humans"}[self.team]` for an enemy one (a
TypeError when `self.team` is the unhashable `both` sentinel).  Then the
straight path is scanned for obstructions and the source/destination checks
of `validate_move_tail` run. -/
def Halali.validate_move (s : Halali) (card_x card_y target_x target_y : Int)
    (for_enemy : Bool) : Except Err Unit :=
  if card_x = target_x ∧ card_y = target_y then
    .error (.invalidMove "Didn't move")
  else if card_x ≠ target_x ∧ card_y ≠ target_y then
    .error (.invalidMove "Can't move diagonally")
  else
    match
      (match for_enemy with
       | true =>
         match s.team with
         | .ofTeam t => .ok (TeamSel.ofTeam t.other)
         | .both => .error Err.typeError
       | false => .ok s.team : Except Err TeamSel) with
    | .error e => .error e
    | .ok team =>
      if card_x ≠ target_x then
        match checkClear s.cards
            ((intRange (min card_x target_x + 1) (max card_x target_x)).map
              fun i => (i, card_y)) with
        | .error e => .error e
        | .ok () =>
          validate_move_tail s.cards card_x card_y target_x target_y team
            (if card_x > target_x then "left" else "right")
            (max card_x target_x - min card_x target_x)
      else
        match checkClear s.cards
            ((intRange (min card_y target_y + 1) (max card_y target_y)).map
              fun i => (card_x, i)) with
        | .error e => .error e
        | .ok () =>
          validate_move_tail s.cards card_x card_y target_x target_y team
            (if card_y > target_y then "down" else "up")
            (max card_y target_y - min card_y target_y)

/-- The rescue_possibilities list: (target_x, target_y, direction). -/
def rescue_possibilities : List (Int × Int × String) :=
  [(0, 3, "y"), (3, 0, "x"), (6, 3, "y"), (3, 6, "x")]

/-- The `for target_x, target_y, direction in rescue_possibilities` loop of
validate_rescue: a card already standing on an exit cell is accepted outright;
otherwise the full move validation towards the exit runs, accepted only when
the travel axis matches the exit's direction tag.  Only InvalidMove from
validate_move is caught; other exceptions propagate. -/
def Halali.rescue_loop (s : Halali) (card_x card_y : Int) (for_enemy : Bool) :
    List (Int × Int × String) → Except Err Unit
  | [] => .error (.invalidMove "Can't escape from this place")
  | (target_x, target_y, direction) :: rest =>
    if target_x = card_x ∧ target_y = card_y then .ok ()
    else
      match s.validate_move card_x card_y target_x target_y for_enemy with
      | .ok () =>
        if card_x = target_x ∧ direction = "x" then .ok ()
        else if card_y = target_y ∧ direction = "y" then .ok ()
        else s.rescue_loop card_x card_y for_enemy rest
      | .error (.invalidMove _) => s.rescue_loop card_x card_y for_enemy rest
      | .error e => .error e

/-- validate_rescue: the cell must hold a card whose kind's team is the side
to play, then some rescue possibility must accept. -/
def Halali.validate_rescue (s : Halali) (card_x card_y : Int) (for_enemy : Bool) :
    Except Err Unit :=
  match getCell s.cards card_x card_y with
  | .error e => .error e
  | .ok none => .error (.invalidMove "Trying to move empty tile")
  | .ok (some card) =>
    if card.kind.teamOf ≠ some s.to_play then
      .error (.invalidMove "Can't rescue neutral pieces")
    else s.rescue_loop card_x card_y for_enemy rescue_possibilities

/-- _swap_teams: tick the half-turn budget down by 0.5 when it is running,
otherwise start it at 5 when the last tile was just revealed; then flip the
side to play. -/
def Halali.swap_teams (s : Halali) : Halali :=
  let s' :=
    match s.turns_left with
    | some t => { s with turns_left := some (t - 1/2) }
    | none => if s.tiles_left = 0 then { s with turns_left := some 5 } else s
  { s' with to_play := s'.to_play.other }

/-- attempt_rescue.  Each attempt returns the raised exception (if any)
together with the state at the moment the method returned or raised, so that
mutation before an exception would be visible. -/
def Halali.attempt_rescue (s : Halali) (location : Int × Int) (for_enemy : Bool) :
    Except Err Unit × Halali :=
  match s.check_can_play for_enemy with
  | .error e => (.error e, s)
  | .ok () =>
    match getCell s.cards location.1 location.2 with
    | .error e => (.error e, s)
    | .ok card =>
      match s.validate_rescue location.1 location.2 for_enemy with
      | .error e => (.error e, s)
      | .ok () =>
        match card with
        | none => (.error .typeError, { s with cards := setCell s.cards location.1 location.2 none })
        | some c =>
          (.ok (),
            (Halali.addPoints { s with cards := setCell s.cards location.1 location.2 none }
              s.to_play c.kind.points).swap_teams)

/-- attempt_reveal. -/
def Halali.attempt_reveal (s : Halali) (location : Int × Int) (for_enemy : Bool) :
    Except Err Unit × Halali :=
  match s.check_can_play for_enemy with
  | .error e => (.error e, s)
  | .ok () =>
    match getCell s.cards location.1 location.2 with
    | .error e => (.error e, s)
    | .ok card =>
      match s.validate_reveal location.1 location.2 for_enemy with
      | .error e => (.error e, s)
      | .ok () =>
        (.ok (),
          ({ s with
              tiles_left := s.tiles_left - 1,
              cards := setCell s.cards location.1 location.2
                (card.map (fun (c : Card) => { c with facing := Facing.up })) } : Halali).swap_teams)

/-- attempt_move. -/
def Halali.attempt_move (s : Halali) (card_loc target_loc : Int × Int)
    (for_enemy : Bool) : Except Err Unit × Halali :=
  match s.check_can_play for_enemy with
  | .error e => (.error e, s)
  | .ok () =>
    match s.validate_move card_loc.1 card_loc.2 target_loc.1 target_loc.2 for_enemy with
    | .error e => (.error e, s)
    | .ok () =>
      match getCell s.cards target_loc.1 target_loc.2 with
      | .error e => (.error e, s)
      | .ok target =>
        match getCell (match target with
            | some t => s.addPoints s.to_play t.kind.points
            | none => s).cards card_loc.1 card_loc.2 with
        | .error e =>
          (.error e,
            match target with
            | some t => s.addPoints s.to_play t.kind.points
            | none => s)
        | .ok moving =>
          (.ok (),
            ({ (match target with
                | some t => s.addPoints s.to_play t.kind.points
                | none => s) with
              cards := setCell
                (setCell (match target with
                  | some t => s.addPoints s.to_play t.kind.points
                  | none => s).cards target_loc.1 target_loc.2 moving)
                card_loc.1 card_loc.2 none } : Halali).swap_teams)

/-- Halali.update: raises GameOver (returned as `true`) when the half-turn
budget has run out; otherwise does nothing.  It never mutates the state. -/
def Halali.update (s : Halali) : Bool :=
  match s.turns_left with
  | some t => t ≤ 0
  | none => false

/-- The `["move", source, target]` branch of MPServerHalali.update: apply the
peer's move for the enemy side; reply ["ok"] on success and
["FIXME", "wrong move", reason] when the typed InvalidMove is caught.  Any
other exception propagates out of update (modelled as an `Except.error`). -/
def MPServerHalali.update_move (s : Halali) (source target : Int × Int) :
    Except Err (List String) × Halali :=
  match s.attempt_move source target true with
  | (.ok _, s') => (.ok ["ok"], s')
  | (.error (.invalidMove reason), s') => (.ok ["FIXME", "wrong move", reason], s')
  | (.error e, s') => (.error e, s')

/-- The state components two peers must agree on: board contents, both
scores, side to play, turn budget and hidden-tile count (everything except
the local `team` designation). -/
def Halali.obs (s : Halali) : Grid × Int × Int × Team × Option ℚ × Int :=
  (s.cards, s.points_humans, s.points_animals, s.to_play, s.turns_left, s.tiles_left)

/-- A well-shaped 7×7 board. -/
def WfGrid (g : Grid) : Prop :=
  g.length = 7 ∧ ∀ row ∈ g, row.length = 7

/-- A directional card carries its variant key (true of every dealt card;
guards the `card["variant"]` subscript in validate_move). -/
def dirOkCell : Option Card → Bool
  | none => true
  | some c => !c.directional || c.variant.isSome

/-- Every cell of the grid satisfies `dirOkCell`. -/
def DirWf (g : Grid) : Prop :=
  ∀ row ∈ g, ∀ cell ∈ row, dirOkCell cell = true

/-- The direction-of-travel string for a straight move, as validate_move
computes it. -/
def travelDir (card_x card_y target_x target_y : Int) : String :=
  if card_x ≠ target_x then (if card_x > target_x then "left" else "right")
  else (if card_y > target_y then "down" else "up")

/-- The coordinates strictly between source and target along the moved axis,
in the order the source scans them. -/
def betweenCells (card_x card_y target_x target_y : Int) : List (Int × Int) :=
  if card_x ≠ target_x then
    (intRange (min card_x target_x + 1) (max card_x target_x)).map fun i => (i, card_y)
  else
    (intRange (min card_y target_y + 1) (max card_y target_y)).map fun i => (card_x, i)

instance instDecidableExSomeAnd {α : Type} (o : Option α) (P : α → Prop)
    [∀ a, Decidable (P a)] : Decidable (∃ a, o = some a ∧ P a) :=
  match o with
  | none => isFalse fun ⟨_, h, _⟩ => by cases h
  | some b =>
    if h : P b then isTrue ⟨b, rfl, h⟩
    else isFalse fun ⟨a, ha, hp⟩ => h (by injection ha with h2; rw [h2]; exact hp)

/-- The success conditions of `move(from, to)` as the specification states
them (claim C3): distinct cells, a straight line, a clear path strictly in
between, a face-up source card movable by the acting team, the slow-kind
distance bound, and an empty destination or a legal (possibly directional)
capture. -/
def MoveLegalSpec (g : Grid) (t : Team) (card_x card_y target_x target_y : Int) : Prop :=
  ¬(card_x = target_x ∧ card_y = target_y) ∧
  (card_x = target_x ∨ card_y = target_y) ∧
  (∀ p ∈ betweenCells card_x card_y target_x target_y, cellAt g p.1 p.2 = none) ∧
  ∃ c, cellAt g card_x card_y = some c ∧
    c.facing = Facing.up ∧
    c.kind.immovable = false ∧
    (c.kind.teamOf = none ∨ c.kind.teamOf = some t) ∧
    (c.kind.slow = true → |card_x - target_x| + |card_y - target_y| ≤ 1) ∧
    (cellAt g target_x target_y = none ∨
      ∃ tc, cellAt g target_x target_y = some tc ∧
        tc.facing = Facing.up ∧
        tc.kind ∈ c.kind.eats ∧
        (c.directional = true → c.variant = some (travelDir card_x card_y target_x target_y)))

/-- The checks of `MoveLegalSpec` with the destination/capture branch
removed: what the specification asks of a rescue path (claim C4 words: "the
same path-obstruction, slow-distance and ownership checks as for a move all
pass, with the must-capture-face-up-target branch skipped"). -/
def MoveChecksNoCapture (g : Grid) (t : Team) (card_x card_y target_x target_y : Int) : Prop :=
  ¬(card_x = target_x ∧ card_y = target_y) ∧
  (card_x = target_x ∨ card_y = target_y) ∧
  (∀ p ∈ betweenCells card_x card_y target_x target_y, cellAt g p.1 p.2 = none) ∧
  ∃ c, cellAt g card_x card_y = some c ∧
    c.facing = Facing.up ∧
    c.kind.immovable = false ∧
    (c.kind.teamOf = none ∨ c.kind.teamOf = some t) ∧
    (c.kind.slow = true → |card_x - target_x| + |card_y - target_y| ≤ 1)

/-- Rescue legality exactly as claim C4 words it: some exit cell whose axis
matches the direction of travel (direction tag "x": vertical travel along the
middle column; tag "y": horizontal travel along the middle row) is reachable
with the move checks minus the capture branch. -/
def RescueLegalSpecClaim (g : Grid) (t : Team) (card_x card_y : Int) : Prop :=
  ∃ e ∈ rescue_possibilities,
    (if e.2.2 = "x" then card_x = e.1 else card_y = e.2.1) ∧
    MoveChecksNoCapture g t card_x card_y e.1 e.2.1

/-- 1 for a face-down card, 0 for a face-up card or an empty cell. -/
def cellWeight : Option Card → Int
  | some c => if c.facing = Facing.down then 1 else 0
  | none => 0

/-- The number of face-down cards on the board. -/
def countFaceDown (g : Grid) : Int :=
  (g.map fun row => (row.map cellWeight).sum).sum

/-- A freshly dealt engine state, as the `Halali` constructor with deal=True
produces it: animals to play, the `both` sentinel team, zero scores, no turn
budget, 48 hidden tiles, a 7×7 board whose center cell is empty and whose
other 48 cells hold face-down cards matching the catalogue counts, variants
and directional flags. -/
def IsFreshDeal (s : Halali) : Prop :=
  s.to_play = Team.animals ∧
  s.team = TeamSel.both ∧
  s.points_humans = 0 ∧
  s.points_animals = 0 ∧
  s.turns_left = none ∧
  s.tiles_left = 48 ∧
  s.cards.length = 7 ∧
  (∀ row ∈ s.cards, row.length = 7) ∧
  cellAtP s.cards 3 3 = none ∧
  (s.cards.flatten.filterMap id).length = 48 ∧
  (∀ c ∈ s.cards.flatten.filterMap id, c.facing = Facing.down) ∧
  (∀ k : Kind, ((s.cards.flatten.filterMap id).filter fun c => decide (c.kind = k)).length = k.count) ∧
  (∀ c ∈ s.cards.flatten.filterMap id,
    c.directional = c.kind.directionalOf ∧
    (c.kind.variantsOf ≠ [] → ∃ v, c.variant = some v ∧ v ∈ c.kind.variantsOf) ∧
    (c.kind.variantsOf = [] → c.variant = none))

/-- The three state-changing operations. -/
inductive Op
  | reveal (location : Int × Int)
  | move (source target : Int × Int)
  | rescue (location : Int × Int)

/-- Dispatch an operation to the corresponding attempt method. -/
def applyOp (s : Halali) (o : Op) (for_enemy : Bool) : Except Err Unit × Halali :=
  match o with
  | .reveal loc => s.attempt_reveal loc for_enemy
  | .move a b => s.attempt_move a b for_enemy
  | .rescue loc => s.attempt_rescue loc for_enemy

/-- One successful operation transforms `s` into `s'`. -/
def Steps (s s' : Halali) : Prop :=
  ∃ o fe, (applyOp s o fe).1 = .ok () ∧ (applyOp s o fe).2 = s'

/-- States reachable through successful operations. -/
def Reachable : Halali → Halali → Prop :=
  Relation.ReflTransGen Steps

instance (g : Grid) : Decidable (WfGrid g) := by
  unfold WfGrid; infer_instance

instance (g : Grid) : Decidable (DirWf g) := by
  unfold DirWf; infer_instance

instance (g : Grid) (t : Team) (a b c d : Int) : Decidable (MoveLegalSpec g t a b c d) := by
  unfold MoveLegalSpec; infer_instance

instance (g : Grid) (t : Team) (a b c d : Int) : Decidable (MoveChecksNoCapture g t a b c d) := by
  unfold MoveChecksNoCapture; infer_instance

instance (g : Grid) (t : Team) (a b : Int) : Decidable (RescueLegalSpecClaim g t a b) := by
  unfold RescueLegalSpecClaim; infer_instance

instance (s : Halali) : Decidable (IsFreshDeal s) := by
  unfold IsFreshDeal; infer_instance

instance {ε α : Type} [DecidableEq ε] [DecidableEq α] : DecidableEq (Except ε α) := fun x y =>
  match x, y with
  | .ok a, .ok b =>
    if h : a = b then isTrue (by rw [h]) else isFalse (by intro hc; injection hc; contradiction)
  | .error a, .error b =>
    if h : a = b then isTrue (by rw [h]) else isFalse (by intro hc; injection hc; contradiction)
  | .ok _, .error _ => isFalse (by intro hc; cases hc)
  | .error _, .ok _ => isFalse (by intro hc; cases hc)

@[simp]
theorem Team.other_other (t : Team) : t.other.other = t := by
  cases t <;> rfl

@[simp]
theorem addPoints_cards (s : Halali) (t : Team) (p : Int) :
    (s.addPoints t p).cards = s.cards := by
  cases t <;> rfl

@[simp]
theorem addPoints_to_play (s : Halali) (t : Team) (p : Int) :
    (s.addPoints t p).to_play = s.to_play := by
  cases t <;> rfl

@[simp]
theorem addPoints_team (s : Halali) (t : Team) (p : Int) :
    (s.addPoints t p).team = s.team := by
  cases t <;> rfl

@[simp]
theorem addPoints_turns_left (s : Halali) (t : Team) (p : Int) :
    (s.addPoints t p).turns_left = s.turns_left := by
  cases t <;> rfl

@[simp]
theorem addPoints_tiles_left (s : Halali) (t : Team) (p : Int) :
    (s.addPoints t p).tiles_left = s.tiles_left := by
  cases t <;> rfl

@[simp]
theorem swap_teams_cards (s : Halali) : s.swap_teams.cards = s.cards := by
  simp only [Halali.swap_teams]
  rcases hl : s.turns_left with _ | t <;> simp only [hl] <;> split <;> simp [hl]

@[simp]
theorem swap_teams_team (s : Halali) : s.swap_teams.team = s.team := by
  simp only [Halali.swap_teams]
  rcases hl : s.turns_left with _ | t <;> simp only [hl] <;> split <;> simp [hl]

@[simp]
theorem swap_teams_points_humans (s : Halali) :
    s.swap_teams.points_humans = s.points_humans := by
  simp only [Halali.swap_teams]
  rcases hl : s.turns_left with _ | t <;> simp only [hl] <;> split <;> simp [hl]

@[simp]
theorem swap_teams_points_animals (s : Halali) :
    s.swap_teams.points_animals = s.points_animals := by
  simp only [Halali.swap_teams]
  rcases hl : s.turns_left with _ | t <;> simp only [hl] <;> split <;> simp [hl]

@[simp]
theorem swap_teams_tiles_left (s : Halali) : s.swap_teams.tiles_left = s.tiles_left := by
  simp only [Halali.swap_teams]
  rcases hl : s.turns_left with _ | t <;> simp only [hl] <;> split <;> simp [hl]

@[simp]
theorem swap_teams_to_play (s : Halali) : s.swap_teams.to_play = s.to_play.other := by
  simp only [Halali.swap_teams]
  rcases hl : s.turns_left with _ | t <;> simp only [hl] <;> split <;> simp [hl]

theorem swap_teams_turns_left (s : Halali) :
    s.swap_teams.turns_left =
      match s.turns_left with
      | some t => some (t - 1/2)
      | none => if s.tiles_left = 0 then some 5 else none := by
  simp only [Halali.swap_teams]
  rcases hl : s.turns_left with _ | t <;> simp only [hl] <;> split <;> simp [hl]

theorem pyIdx_some_lt {n : Nat} {i : Int} {j : Nat} (h : pyIdx n i = some j) : j < n := by
  unfold pyIdx at h
  split at h
  · injection h with h'
    omega
  · split at h
    · injection h with h'
      omega
    · exact absurd h (by simp)

theorem pyIdx_of_lt {n : Nat} {i : Int} (h0 : 0 ≤ i) (hn : i < (n : Int)) :
    pyIdx n i = some i.toNat := by
  unfold pyIdx
  rw [if_pos ⟨h0, hn⟩]

theorem pyIdx_of_neg {n : Nat} {i : Int} (h0 : -(n : Int) ≤ i) (hn : i < 0) :
    pyIdx n i = some (i + (n : Int)).toNat := by
  unfold pyIdx
  rw [if_neg (by omega), if_pos ⟨h0, hn⟩]

theorem pyIdx_none_of_ge {n : Nat} {i : Int} (h : (n : Int) ≤ i) : pyIdx n i = none := by
  unfold pyIdx
  rw [if_neg (by omega), if_neg (by omega)]

theorem pyGet_ok_parts {α : Type} {l : List α} {i : Int} {a : α}
    (h : pyGet l i = .ok a) :
    ∃ j, pyIdx l.length i = some j ∧ l.get? j = some a := by
  unfold pyGet at h
  cases hj : pyIdx l.length i with
  | none => simp only [hj] at h; exact Except.noConfusion h
  | some j =>
    simp only [hj] at h
    cases hg : l.get? j with
    | none => simp only [hg] at h; exact Except.noConfusion h
    | some b =>
      simp only [hg] at h
      injection h with h2
      exact ⟨j, rfl, by rw [hg, h2]⟩

theorem getCell_ok_parts {g : Grid} {x y : Int} {o : Option Card}
    (h : getCell g x y = .ok o) :
    ∃ i row j, pyIdx g.length x = some i ∧ g.get? i = some row ∧
      pyIdx row.length y = some j ∧ row.get? j = some o := by
  unfold getCell at h
  simp only [bind, Except.bind] at h
  cases hr : pyGet g x with
  | error e => simp only [hr] at h; exact Except.noConfusion h
  | ok row =>
    simp only [hr] at h
    obtain ⟨i, hi, hrow⟩ := pyGet_ok_parts hr
    obtain ⟨j, hj, hcell⟩ := pyGet_ok_parts h
    exact ⟨i, row, j, hi, hrow, hj, hcell⟩

theorem setCell_of_parts {g : Grid} {x y : Int} {i j : Nat} {row : List (Option Card)}
    (hi : pyIdx g.length x = some i) (hrow : g.get? i = some row)
    (hj : pyIdx row.length y = some j) (v : Option Card) :
    setCell g x y v = g.set i (row.set j v) := by
  unfold setCell pySet
  simp only [hi, hrow, hj]

theorem map_set_comm {α β : Type} (f : α → β) :
    ∀ (l : List α) (j : Nat) (a : α), (l.set j a).map f = (l.map f).set j (f a)
  | [], _, _ => rfl
  | _ :: _, 0, _ => rfl
  | x :: xs, j + 1, a => by
    simp only [List.set, List.map_cons]
    rw [map_set_comm f xs j a]

theorem get?_map_eq {α β : Type} (f : α → β) :
    ∀ (l : List α) (j : Nat), (l.map f).get? j = (l.get? j).map f
  | [], j => by cases j <;> rfl
  | _ :: _, 0 => rfl
  | _ :: xs, j + 1 => get?_map_eq f xs j

theorem sum_set_int :
    ∀ (l : List Int) (j : Nat) (b a : Int),
      l.get? j = some b → (l.set j a).sum = l.sum - b + a
  | [], j, _, _, h => by cases j <;> exact Option.noConfusion h
  | x :: _, 0, b, a, h => by
    have h2 : x = b := by injection h
    simp only [List.set, List.sum_cons]
    omega
  | x :: xs, j + 1, b, a, h => by
    simp only [List.set, List.sum_cons]
    rw [sum_set_int xs j b a h]
    omega

theorem get?_le_sum_of_nonneg :
    ∀ (l : List Int), (∀ z ∈ l, 0 ≤ z) → ∀ (j : Nat) (b : Int), l.get? j = some b → b ≤ l.sum
  | [], _, j, _, h => by cases j <;> exact Option.noConfusion h
  | x :: xs, hpos, 0, b, h => by
    have h2 : x = b := by injection h
    have hxs : 0 ≤ xs.sum := List.sum_nonneg fun z hz => hpos z (List.mem_cons_of_mem _ hz)
    simp only [List.sum_cons]
    omega
  | x :: xs, hpos, j + 1, b, h => by
    have hx : 0 ≤ x := hpos x (List.mem_cons_self x xs)
    have := get?_le_sum_of_nonneg xs (fun z hz => hpos z (List.mem_cons_of_mem _ hz)) j b h
    simp only [List.sum_cons]
    omega

theorem cellWeight_nonneg (o : Option Card) : 0 ≤ cellWeight o := by
  rcases o with _ | c
  · simp [cellWeight]
  · simp only [cellWeight]
    split <;> omega

theorem rowWeight_nonneg (row : List (Option Card)) : 0 ≤ (row.map cellWeight).sum :=
  List.sum_nonneg fun z hz => by
    obtain ⟨o, _, ho⟩ := List.mem_map.1 hz
    rw [← ho]
    exact cellWeight_nonneg o

theorem countFaceDown_nonneg (g : Grid) : 0 ≤ countFaceDown g :=
  List.sum_nonneg fun z hz => by
    obtain ⟨row, _, hrow⟩ := List.mem_map.1 hz
    rw [← hrow]
    exact rowWeight_nonneg row

theorem countFaceDown_set {g : Grid} {x y : Int} {o : Option Card}
    (h : getCell g x y = .ok o) (v : Option Card) :
    countFaceDown (setCell g x y v) = countFaceDown g - cellWeight o + cellWeight v := by
  obtain ⟨i, row, j, hi, hrow, hj, hcell⟩ := getCell_ok_parts h
  rw [setCell_of_parts hi hrow hj v]
  unfold countFaceDown
  rw [map_set_comm]
  have hgets : (g.map fun r => (r.map cellWeight).sum).get? i
      = some ((row.map cellWeight).sum) := by
    rw [get?_map_eq, hrow]
    rfl
  rw [sum_set_int _ i _ _ hgets]
  have hcw : (row.map cellWeight).get? j = some (cellWeight o) := by
    rw [get?_map_eq, hcell]
    rfl
  rw [map_set_comm, sum_set_int _ j _ _ hcw]
  omega

theorem cellWeight_le_countFaceDown {g : Grid} {x y : Int} {o : Option Card}
    (h : getCell g x y = .ok o) : cellWeight o ≤ countFaceDown g := by
  obtain ⟨i, row, j, hi, hrow, hj, hcell⟩ := getCell_ok_parts h
  have hrowpos : ∀ z ∈ row.map cellWeight, 0 ≤ z := fun z hz => by
    obtain ⟨c, _, hc⟩ := List.mem_map.1 hz
    rw [← hc]
    exact cellWeight_nonneg c
  have h1 : cellWeight o ≤ (row.map cellWeight).sum :=
    get?_le_sum_of_nonneg _ hrowpos j _ (by rw [get?_map_eq, hcell]; rfl)
  have hgpos : ∀ z ∈ g.map fun r => (r.map cellWeight).sum, 0 ≤ z := fun z hz => by
    obtain ⟨r, _, hr⟩ := List.mem_map.1 hz
    rw [← hr]
    exact rowWeight_nonneg r
  have h2 : (row.map cellWeight).sum ≤ countFaceDown g :=
    get?_le_sum_of_nonneg _ hgpos i _ (by rw [get?_map_eq, hrow]; rfl)
  omega

theorem pyGet_error {α : Type} {l : List α} {i : Int} {e : Err}
    (h : pyGet l i = .error e) : e = .indexError := by
  unfold pyGet at h
  cases hj : pyIdx l.length i with
  | none =>
    simp only [hj] at h
    injection h with h2
    exact h2.symm
  | some j =>
    simp only [hj] at h
    cases hg : l.get? j with
    | none =>
      simp only [hg] at h
      injection h with h2
      exact h2.symm
    | some b => simp only [hg] at h; exact Except.noConfusion h

theorem getCell_error {g : Grid} {x y : Int} {e : Err}
    (h : getCell g x y = .error e) : e = .indexError := by
  unfold getCell at h
  simp only [bind, Except.bind] at h
  cases hr : pyGet g x with
  | error e2 =>
    simp only [hr] at h
    injection h with h2
    rw [← h2]
    exact pyGet_error hr
  | ok row =>
    simp only [hr] at h
    exact pyGet_error h

theorem validate_rescue_ok_cell {s : Halali} {x y : Int} {fe : Bool}
    (h : s.validate_rescue x y fe = .ok ()) :
    ∃ c, getCell s.cards x y = .ok (some c) ∧ c.kind.teamOf = some s.to_play := by
  unfold Halali.validate_rescue at h
  cases hg : getCell s.cards x y with
  | error e => rw [hg] at h; exact Except.noConfusion h
  | ok oc =>
    rw [hg] at h
    cases oc with
    | none => exact Except.noConfusion h
    | some c =>
      by_cases ht : c.kind.teamOf = some s.to_play
      · exact ⟨c, rfl, ht⟩
      · have h2 : (if c.kind.teamOf ≠ some s.to_play then
            Except.error (Err.invalidMove "Can't rescue neutral pieces")
          else s.rescue_loop x y fe rescue_possibilities) = Except.ok () := h
        rw [if_pos ht] at h2
        exact Except.noConfusion h2

theorem validate_reveal_ok_cell {s : Halali} {x y : Int} {fe : Bool}
    (h : s.validate_reveal x y fe = .ok ()) :
    ∃ c, getCell s.cards x y = .ok (some c) ∧ c.facing = Facing.down := by
  unfold Halali.validate_reveal at h
  cases hg : getCell s.cards x y with
  | error e => rw [hg] at h; exact Except.noConfusion h
  | ok oc =>
    rw [hg] at h
    cases oc with
    | none => exact Except.noConfusion h
    | some c =>
      by_cases hf : c.facing = Facing.up
      · have h2 : (if c.facing = Facing.up then
            Except.error (Err.invalidMove "Can't reveal face-up card")
          else
            have := fe
            Except.ok ()) = Except.ok () := h
        rw [if_pos hf] at h2
        exact Except.noConfusion h2
      · exact ⟨c, rfl, by rcases hfc : c.facing with _ | _
                          · rfl
                          · exact absurd hfc hf⟩

theorem attempt_reveal_cases (s : Halali) (loc : Int × Int) (fe : Bool) :
    ((s.attempt_reveal loc fe).1 = .ok () ∧
      ∃ c, getCell s.cards loc.1 loc.2 = .ok (some c) ∧ c.facing = Facing.down ∧
        (s.attempt_reveal loc fe).2 =
          Halali.swap_teams
            { s with
                tiles_left := s.tiles_left - 1,
                cards := setCell s.cards loc.1 loc.2
                  (some { c with facing := Facing.up }) }) ∨
    ((s.attempt_reveal loc fe).1 ≠ .ok () ∧ (s.attempt_reveal loc fe).2 = s) := by
  unfold Halali.attempt_reveal
  cases hchk : s.check_can_play fe with
  | error e => exact Or.inr ⟨by simp, rfl⟩
  | ok u =>
    cases u
    cases hget : getCell s.cards loc.1 loc.2 with
    | error e => exact Or.inr ⟨by simp, rfl⟩
    | ok card =>
      cases hval : s.validate_reveal loc.1 loc.2 fe with
      | error e => exact Or.inr ⟨by simp, rfl⟩
      | ok u2 =>
        cases u2
        obtain ⟨c, hc, hcd⟩ := validate_reveal_ok_cell hval
        rw [hget] at hc
        injection hc with hc2
        left
        refine ⟨rfl, c, by rw [hc2], hcd, ?_⟩
        rw [hc2]
        rfl

theorem attempt_rescue_cases (s : Halali) (loc : Int × Int) (fe : Bool) :
    ((s.attempt_rescue loc fe).1 = .ok () ∧
      s.validate_rescue loc.1 loc.2 fe = .ok () ∧
      ∃ c, getCell s.cards loc.1 loc.2 = .ok (some c) ∧
        c.kind.teamOf = some s.to_play ∧
        (s.attempt_rescue loc fe).2 =
          Halali.swap_teams
            (Halali.addPoints { s with cards := setCell s.cards loc.1 loc.2 none }
              s.to_play c.kind.points)) ∨
    ((s.attempt_rescue loc fe).1 ≠ .ok () ∧ (s.attempt_rescue loc fe).2 = s) := by
  cases hchk : s.check_can_play fe with
  | error e =>
    have key : s.attempt_rescue loc fe = (.error e, s) := by
      simp only [Halali.attempt_rescue, hchk]
    rw [key]
    exact Or.inr ⟨by simp, rfl⟩
  | ok u =>
    cases u
    cases hget : getCell s.cards loc.1 loc.2 with
    | error e =>
      have key : s.attempt_rescue loc fe = (.error e, s) := by
        simp only [Halali.attempt_rescue, hchk, hget]
      rw [key]
      exact Or.inr ⟨by simp, rfl⟩
    | ok card =>
      cases hval : s.validate_rescue loc.1 loc.2 fe with
      | error e =>
        have key : s.attempt_rescue loc fe = (.error e, s) := by
          simp only [Halali.attempt_rescue, hchk, hget, hval]
        rw [key]
        exact Or.inr ⟨by simp, rfl⟩
      | ok u2 =>
        cases u2
        obtain ⟨c, hc, hteam⟩ := validate_rescue_ok_cell hval
        rw [hget] at hc
        injection hc with hc2
        have key : s.attempt_rescue loc fe =
            (.ok (),
              Halali.swap_teams
                (Halali.addPoints { s with cards := setCell s.cards loc.1 loc.2 none }
                  s.to_play c.kind.points)) := by
          simp only [Halali.attempt_rescue, hchk, hget, hval, hc2]
        rw [key]
        exact Or.inl ⟨rfl, rfl, c, by rw [hc2], hteam, rfl⟩

theorem attempt_move_cases (s : Halali) (a b : Int × Int) (fe : Bool) :
    ((s.attempt_move a b fe).1 = .ok () ∧
      s.validate_move a.1 a.2 b.1 b.2 fe = .ok () ∧
      ∃ o, getCell s.cards b.1 b.2 = .ok o ∧
      ∃ mc, getCell s.cards a.1 a.2 = .ok mc ∧
        (s.attempt_move a b fe).2 =
          Halali.swap_teams
            { (match o with
               | some tcard => s.addPoints s.to_play tcard.kind.points
               | none => s) with
              cards := setCell (setCell s.cards b.1 b.2 mc) a.1 a.2 none }) ∨
    ((s.attempt_move a b fe).1 ≠ .ok () ∧
      ((s.attempt_move a b fe).2 = s ∨ (s.attempt_move a b fe).1 = .error .indexError)) := by
  cases hchk : s.check_can_play fe with
  | error e =>
    have key : s.attempt_move a b fe = (.error e, s) := by
      simp only [Halali.attempt_move, hchk]
    rw [key]
    exact Or.inr ⟨by simp, Or.inl rfl⟩
  | ok u =>
    cases u
    cases hval : s.validate_move a.1 a.2 b.1 b.2 fe with
    | error e =>
      have key : s.attempt_move a b fe = (.error e, s) := by
        simp only [Halali.attempt_move, hchk, hval]
      rw [key]
      exact Or.inr ⟨by simp, Or.inl rfl⟩
    | ok u2 =>
      cases u2
      cases htgt : getCell s.cards b.1 b.2 with
      | error e =>
        have key : s.attempt_move a b fe = (.error e, s) := by
          simp only [Halali.attempt_move, hchk, hval, htgt]
        rw [key]
        exact Or.inr ⟨by simp, Or.inl rfl⟩
      | ok target =>
        cases target with
        | none =>
          cases hsrc : getCell s.cards a.1 a.2 with
          | error e =>
            have key : s.attempt_move a b fe = (.error e, s) := by
              simp only [Halali.attempt_move, hchk, hval, htgt, hsrc]
            rw [key]
            refine Or.inr ⟨by simp, Or.inr ?_⟩
            have he := getCell_error hsrc
            simp [he]
          | ok moving =>
            have key : s.attempt_move a b fe =
                (.ok (),
                  Halali.swap_teams
                    { s with
                        cards := setCell (setCell s.cards b.1 b.2 moving) a.1 a.2 none }) := by
              simp only [Halali.attempt_move, hchk, hval, htgt, hsrc]
            rw [key]
            exact Or.inl ⟨rfl, rfl, none, rfl, moving, rfl, rfl⟩
        | some tcard =>
          cases hsrc : getCell s.cards a.1 a.2 with
          | error e =>
            have key : s.attempt_move a b fe =
                (.error e, s.addPoints s.to_play tcard.kind.points) := by
              simp only [Halali.attempt_move, hchk, hval, htgt, addPoints_cards, hsrc]
            rw [key]
            refine Or.inr ⟨by simp, Or.inr ?_⟩
            have he := getCell_error hsrc
            simp [he]
          | ok moving =>
            have key : s.attempt_move a b fe =
                (.ok (),
                  Halali.swap_teams
                    { s.addPoints s.to_play tcard.kind.points with
                        cards := setCell (setCell s.cards b.1 b.2 moving) a.1 a.2 none }) := by
              simp only [Halali.attempt_move, hchk, hval, htgt, addPoints_cards, hsrc]
            rw [key]
            exact Or.inl ⟨rfl, rfl, some tcard, rfl, moving, rfl, rfl⟩

/-- An all-empty 7×7 board. -/
def emptyGrid : Grid := List.replicate 7 (List.replicate 7 none)

/-- C1: if attempt_move, attempt_reveal or attempt_rescue raises the typed
InvalidMove error — with any arguments and either value of for_enemy — the
returned state is exactly the input state: operations either fully apply or
change nothing. -/
theorem c1_invalid_move_leaves_state_unchanged :
    ∀ (s : Halali) (a b loc : Int × Int) (fe : Bool) (r : String),
      ((s.attempt_move a b fe).1 = .error (.invalidMove r) →
        (s.attempt_move a b fe).2 = s) ∧
      ((s.attempt_reveal loc fe).1 = .error (.invalidMove r) →
        (s.attempt_reveal loc fe).2 = s) ∧
      ((s.attempt_rescue loc fe).1 = .error (.invalidMove r) →
        (s.attempt_rescue loc fe).2 = s) := by
  intro s a b loc fe r
  refine ⟨?_, ?_, ?_⟩
  · intro h
    rcases attempt_move_cases s a b fe with ⟨h1, _⟩ | ⟨_, h2 | h2⟩
    · rw [h1] at h
      exact Except.noConfusion h
    · exact h2
    · have h3 := h2.symm.trans h
      injection h3 with h4
      exact Err.noConfusion h4
  · intro h
    rcases attempt_reveal_cases s loc fe with ⟨h1, _⟩ | ⟨_, h2⟩
    · rw [h1] at h
      exact Except.noConfusion h
    · exact h2
  · intro h
    rcases attempt_rescue_cases s loc fe with ⟨h1, _⟩ | ⟨_, h2⟩
    · rw [h1] at h
      exact Except.noConfusion h
    · exact h2

/-- A state in which it is not the local side's turn. -/
def sNotYourTurn : Halali :=
  ⟨Team.animals, TeamSel.ofTeam Team.humans, emptyGrid, 0, 0, none, 48⟩

theorem c1_invalid_move_leaves_state_unchanged_witness :
    (sNotYourTurn.attempt_move (0, 0) (1, 0) false).1 =
        .error (.invalidMove "Not your turn!") ∧
    (sNotYourTurn.attempt_move (0, 0) (1, 0) false).2 = sNotYourTurn := by
  refine ⟨by decide, ?_⟩
  exact (c1_invalid_move_leaves_state_unchanged sNotYourTurn (0, 0) (1, 0) (0, 0) false
    "Not your turn!").1 (by decide)

/-- C8: every successful reveal, move or rescue ends with the same turn-swap
step: a running half-turn budget is decremented by 0.5; otherwise, when
tiles_left has just reached 0, the budget is set to the fixed starting value 5
without a decrement in that same step; and in all cases to_play flips to the
opposite team.  (For a reveal, tiles_left is one less than before; the other
operations leave it unchanged.) -/
theorem c8_success_ends_with_turn_swap :
    ∀ (s : Halali) (a b loc : Int × Int) (fe : Bool),
      ((s.attempt_move a b fe).1 = .ok () →
        (s.attempt_move a b fe).2.to_play = s.to_play.other ∧
        (s.attempt_move a b fe).2.tiles_left = s.tiles_left ∧
        (s.attempt_move a b fe).2.turns_left =
          (match s.turns_left with
           | some t => some (t - 1/2)
           | none => if s.tiles_left = 0 then some 5 else none)) ∧
      ((s.attempt_reveal loc fe).1 = .ok () →
        (s.attempt_reveal loc fe).2.to_play = s.to_play.other ∧
        (s.attempt_reveal loc fe).2.tiles_left = s.tiles_left - 1 ∧
        (s.attempt_reveal loc fe).2.turns_left =
          (match s.turns_left with
           | some t => some (t - 1/2)
           | none => if s.tiles_left - 1 = 0 then some 5 else none)) ∧
      ((s.attempt_rescue loc fe).1 = .ok () →
        (s.attempt_rescue loc fe).2.to_play = s.to_play.other ∧
        (s.attempt_rescue loc fe).2.tiles_left = s.tiles_left ∧
        (s.attempt_rescue loc fe).2.turns_left =
          (match s.turns_left with
           | some t => some (t - 1/2)
           | none => if s.tiles_left = 0 then some 5 else none)) := by
  intro s a b loc fe
  refine ⟨?_, ?_, ?_⟩
  · intro h
    rcases attempt_move_cases s a b fe with ⟨_, _, o, _, mc, _, h2⟩ | ⟨h1, _⟩
    · rw [h2]
      rw [swap_teams_to_play, swap_teams_tiles_left, swap_teams_turns_left]
      cases o <;> simp
    · exact absurd h h1
  · intro h
    rcases attempt_reveal_cases s loc fe with ⟨_, c, _, _, h2⟩ | ⟨h1, _⟩
    · rw [h2]
      rw [swap_teams_to_play, swap_teams_tiles_left, swap_teams_turns_left]
      exact ⟨rfl, rfl, rfl⟩
    · exact absurd h h1
  · intro h
    rcases attempt_rescue_cases s loc fe with ⟨_, _, c, _, _, h2⟩ | ⟨h1, _⟩
    · rw [h2]
      rw [swap_teams_to_play, swap_teams_tiles_left, swap_teams_turns_left]
      simp
    · exact absurd h h1

/-- A reveal-phase state with one face-down duck, used to exercise the
turn-swap rule on a successful reveal. -/
def sRevealSwap : Halali :=
  ⟨Team.animals, TeamSel.both,
    setCell emptyGrid 0 0 (some ⟨Kind.duck, Facing.down, none, false⟩),
    0, 0, none, 5⟩

theorem c8_success_ends_with_turn_swap_witness :
    (sRevealSwap.attempt_reveal (0, 0) false).1 = .ok () ∧
    (sRevealSwap.attempt_reveal (0, 0) false).2.to_play = Team.humans ∧
    (sRevealSwap.attempt_reveal (0, 0) false).2.tiles_left = 4 ∧
    (sRevealSwap.attempt_reveal (0, 0) false).2.turns_left = none := by
  have hk := (c8_success_ends_with_turn_swap sRevealSwap (0, 0) (0, 0) (0, 0) false).2.1
    (by decide)
  refine ⟨by decide, ?_, ?_, ?_⟩
  · rw [hk.1]
    decide
  · rw [hk.2.1]
    decide
  · rw [hk.2.2]
    decide

/-- A reveal-phase state (no turn budget, hidden tiles remaining) with an
animals-owned fox standing on the left exit cell. -/
def sRevealPhaseRescue : Halali :=
  ⟨Team.animals, TeamSel.ofTeam Team.animals,
    setCell emptyGrid 0 3 (some ⟨Kind.fox, Facing.up, none, false⟩),
    0, 0, none, 40⟩

/-- C5 counterexample: in a Reveal-phase state (turns_left null, tiles_left
positive) attempt_rescue can succeed — the engine does not gate rescues on
the phase, contradicting the claim that every Reveal-phase rescue fails. -/
theorem c5_counterexample_reveal_phase_rescue_succeeds :
    sRevealPhaseRescue.turns_left = none ∧
    0 < sRevealPhaseRescue.tiles_left ∧
    (sRevealPhaseRescue.attempt_rescue (0, 3) false).1 = .ok () := by
  decide

/-- C5 amended: the engine itself never consults the phase: the outcome
(success or the exact raised error) of attempt_rescue is unchanged under any
replacement of turns_left and tiles_left, so a rescue validates in the Reveal
phase under exactly the same conditions as in the Endgame phase; the
Endgame-only restriction is enforced by the callers (the UI materialises exit
cells only in Endgame, and the computer opponent only tries rescues when
turns_left is non-null). -/
theorem c5_amended_rescue_outcome_ignores_phase :
    ∀ (s : Halali) (q : Option ℚ) (n : Int) (loc : Int × Int) (fe : Bool),
      (Halali.attempt_rescue { s with turns_left := q, tiles_left := n } loc fe).1 =
        (s.attempt_rescue loc fe).1 := by
  intro s q n loc fe
  have hchk : Halali.check_can_play { s with turns_left := q, tiles_left := n } fe =
      s.check_can_play fe := rfl
  have hval : Halali.validate_rescue { s with turns_left := q, tiles_left := n }
      loc.1 loc.2 fe = s.validate_rescue loc.1 loc.2 fe := rfl
  have hcards : ({ s with turns_left := q, tiles_left := n } : Halali).cards = s.cards := rfl
  cases hc : s.check_can_play fe with
  | error e => simp only [Halali.attempt_rescue, hchk, hcards, hc]
  | ok u =>
    cases u
    cases hg : getCell s.cards loc.1 loc.2 with
    | error e => simp only [Halali.attempt_rescue, hchk, hcards, hc, hg]
    | ok card =>
      cases hv : s.validate_rescue loc.1 loc.2 fe with
      | error e => simp only [Halali.attempt_rescue, hchk, hval, hcards, hc, hg, hv]
      | ok u2 =>
        cases u2
        cases card <;>
          simp only [Halali.attempt_rescue, hchk, hval, hcards, hc, hg, hv]

/-- An Endgame state whose half-turn budget has already reached 0, with a
face-up fox free to move. -/
def sTurnsExhausted : Halali :=
  ⟨Team.animals, TeamSel.ofTeam Team.animals,
    setCell emptyGrid 0 0 (some ⟨Kind.fox, Facing.up, none, false⟩),
    0, 0, some 0, 0⟩

/-- C6 counterexample: with turns_left already at 0 (≤ 0), an attempted move
does not raise game-over: it succeeds and mutates the state (the budget even
goes to -0.5). -/
theorem c6_counterexample_operation_succeeds_after_budget_exhausted :
    sTurnsExhausted.turns_left = some 0 ∧
    (sTurnsExhausted.attempt_move (0, 0) (2, 0) false).1 = .ok () ∧
    (sTurnsExhausted.attempt_move (0, 0) (2, 0) false).2 ≠ sTurnsExhausted := by
  decide

/-- C6 amended: the game-over condition is checked only by the per-tick
update poll, which raises GameOver exactly when turns_left is non-null and
≤ 0 and never mutates state; the three operations themselves never consult
turns_left, so an operation attempted after the budget reaches 0 still
applies — in the polled control flow it is the next update call, not the
operation, that raises game-over. -/
theorem c6_amended_game_over_checked_by_update_not_ops :
    (∀ s : Halali, s.update = true ↔ ∃ t : ℚ, s.turns_left = some t ∧ t ≤ 0) ∧
    (∀ (s : Halali) (q : Option ℚ) (a b loc : Int × Int) (fe : Bool),
      (Halali.attempt_move { s with turns_left := q } a b fe).1 =
        (s.attempt_move a b fe).1 ∧
      (Halali.attempt_reveal { s with turns_left := q } loc fe).1 =
        (s.attempt_reveal loc fe).1 ∧
      (Halali.attempt_rescue { s with turns_left := q } loc fe).1 =
        (s.attempt_rescue loc fe).1) := by
  constructor
  · intro s
    cases ht : s.turns_left with
    | none => simp [Halali.update, ht]
    | some t => simp [Halali.update, ht]
  · intro s q a b loc fe
    have hchk : Halali.check_can_play { s with turns_left := q } fe =
        s.check_can_play fe := rfl
    have hvalm : ∀ cx cy tx ty,
        Halali.validate_move { s with turns_left := q } cx cy tx ty fe =
          s.validate_move cx cy tx ty fe := fun _ _ _ _ => rfl
    have hvalr : Halali.validate_rescue { s with turns_left := q } loc.1 loc.2 fe =
        s.validate_rescue loc.1 loc.2 fe := rfl
    have hvalv : Halali.validate_reveal { s with turns_left := q } loc.1 loc.2 fe =
        s.validate_reveal loc.1 loc.2 fe := rfl
    have hcards : ({ s with turns_left := q } : Halali).cards = s.cards := rfl
    refine ⟨?_, ?_, ?_⟩
    · cases hc : s.check_can_play fe with
      | error e => simp only [Halali.attempt_move, hchk, hc]
      | ok u =>
        cases u
        cases hv : s.validate_move a.1 a.2 b.1 b.2 fe with
        | error e => simp only [Halali.attempt_move, hchk, hvalm, hcards, hc, hv]
        | ok u2 =>
          cases u2
          cases hg : getCell s.cards b.1 b.2 with
          | error e => simp only [Halali.attempt_move, hchk, hvalm, hcards, hc, hv, hg]
          | ok target =>
            have hcards2 : ∀ tcard : Card,
                (Halali.addPoints { s with turns_left := q } s.to_play
                  tcard.kind.points).cards = (s.addPoints s.to_play tcard.kind.points).cards := by
              intro tcard
              rw [addPoints_cards, addPoints_cards]
            cases target with
            | none =>
              cases hg2 : getCell s.cards a.1 a.2 with
              | error e =>
                simp only [Halali.attempt_move, hchk, hvalm, hcards, hc, hv, hg, hg2]
              | ok moving =>
                simp only [Halali.attempt_move, hchk, hvalm, hcards, hc, hv, hg, hg2]
            | some tcard =>
              cases hg2 : getCell s.cards a.1 a.2 with
              | error e =>
                simp only [Halali.attempt_move, hchk, hvalm, hcards, hc, hv, hg,
                  addPoints_cards, addPoints_to_play, hg2]
              | ok moving =>
                simp only [Halali.attempt_move, hchk, hvalm, hcards, hc, hv, hg,
                  addPoints_cards, addPoints_to_play, hg2]
    · cases hc : s.check_can_play fe with
      | error e => simp only [Halali.attempt_reveal, hchk, hc]
      | ok u =>
        cases u
        cases hg : getCell s.cards loc.1 loc.2 with
        | error e => simp only [Halali.attempt_reveal, hchk, hcards, hc, hg]
        | ok card =>
          cases hv : s.validate_reveal loc.1 loc.2 fe with
          | error e => simp only [Halali.attempt_reveal, hchk, hvalv, hcards, hc, hg, hv]
          | ok u2 =>
            cases u2
            simp only [Halali.attempt_reveal, hchk, hvalv, hcards, hc, hg, hv]
    · cases hc : s.check_can_play fe with
      | error e => simp only [Halali.attempt_rescue, hchk, hc]
      | ok u =>
        cases u
        cases hg : getCell s.cards loc.1 loc.2 with
        | error e => simp only [Halali.attempt_rescue, hchk, hcards, hc, hg]
        | ok card =>
          cases hv : s.validate_rescue loc.1 loc.2 fe with
          | error e => simp only [Halali.attempt_rescue, hchk, hvalr, hcards, hc, hg, hv]
          | ok u2 =>
            cases u2
            cases card <;>
              simp only [Halali.attempt_rescue, hchk, hvalr, hcards, hc, hg, hv]

/-- A hosting engine (server side plays humans) while it is the remote
client's (animals') turn. -/
def sServer : Halali :=
  ⟨Team.animals, TeamSel.ofTeam Team.humans, emptyGrid, 0, 0, none, 48⟩

/-- C9: dequeuing ["move", [0,0], [0,0]] on the serving peer produces the
reply ["FIXME", "wrong move", reason] — the first element of the error reply
is the literal tag "FIXME", not the tag "error" that the protocol
specification prescribes (the joining client treats such a reply as an
unknown message and crashes). -/
theorem c9_server_move_error_reply_is_tagged_fixme :
    MPServerHalali.update_move sServer (0, 0) (0, 0) =
      (.ok ["FIXME", "wrong move", "Didn't move"], sServer) ∧
    "FIXME" ≠ "error" := by
  decide

/-- A hot-seat state on an empty board. -/
def sOutOfRange : Halali :=
  ⟨Team.animals, TeamSel.both, emptyGrid, 0, 0, none, 48⟩

/-- C10 counterexample: the claim says an out-of-range coordinate makes every
operation raise the untyped IndexError; but attempt_move((7,0),(7,0)) raises
the typed InvalidMove "Didn't move", because validate_move checks from == to
before any board subscript. -/
theorem c10_counterexample_oob_move_raises_invalid_move :
    (sOutOfRange.attempt_move (7, 0) (7, 0) false).1 =
      .error (.invalidMove "Didn't move") ∧
    (sOutOfRange.attempt_move (7, 0) (7, 0) false).1 ≠ .error .indexError := by
  decide

theorem intRange_nil {a b : Int} (h : b ≤ a) : intRange a b = [] := by
  unfold intRange
  rw [Int.toNat_of_nonpos (by omega)]
  rfl

theorem getCell_indexError_of_ge {g : Grid} {x : Int} (y : Int)
    (hlen : g.length = 7) (hx : (7 : Int) ≤ x) :
    getCell g x y = .error .indexError := by
  unfold getCell pyGet
  rw [hlen]
  rw [pyIdx_none_of_ge (by exact_mod_cast hx)]
  rfl

theorem mem_of_get?_eq {α : Type} :
    ∀ {l : List α} {j : Nat} {a : α}, l.get? j = some a → a ∈ l
  | [], j, _, h => by cases j <;> exact Option.noConfusion h
  | x :: xs, 0, a, h => by
    have h2 : x = a := by injection h
    rw [← h2]
    exact List.mem_cons_self x xs
  | x :: xs, j + 1, a, h => List.mem_cons_of_mem x (mem_of_get?_eq h)

theorem getCell_neg_wrap_x {g : Grid} {x : Int} (y : Int) (hlen : g.length = 7)
    (h1 : -7 ≤ x) (h2 : x < 0) : getCell g x y = getCell g (x + 7) y := by
  unfold getCell pyGet
  rw [hlen]
  rw [pyIdx_of_neg (by exact_mod_cast h1) h2,
    pyIdx_of_lt (by omega) (by exact_mod_cast (by omega : x + 7 < 7))]
  have hc : ((7 : Nat) : Int) = (7 : Int) := by norm_num
  rw [hc]

theorem getCell_neg_wrap_y {g : Grid} {x y : Int} (hlen : g.length = 7)
    (hrows : ∀ row ∈ g, row.length = 7)
    (hx1 : 0 ≤ x) (hx2 : x < 7) (h1 : -7 ≤ y) (h2 : y < 0) :
    getCell g x y = getCell g x (y + 7) := by
  unfold getCell pyGet
  rw [hlen]
  rw [pyIdx_of_lt hx1 (by exact_mod_cast hx2)]
  simp only [bind, Except.bind]
  cases hrow : g.get? x.toNat with
  | none => simp only [hrow]
  | some row =>
    have hrl : row.length = 7 := hrows row (mem_of_get?_eq hrow)
    simp only [hrow, hrl]
    rw [pyIdx_of_neg (by exact_mod_cast h1) h2,
      pyIdx_of_lt (by omega) (by exact_mod_cast (by omega : y + 7 < 7))]
    have hc : ((7 : Nat) : Int) = (7 : Int) := by norm_num
    rw [hc]

/-- C10 amended: no operation performs bounds validation.  When it is the
caller's turn, a reveal or rescue whose x-coordinate is ≥ 7 raises the
untyped IndexError from the first board subscript; a move does so as well
once the index-free from==to and diagonal checks pass (those two checks fire
first and raise the typed InvalidMove even for out-of-board coordinates, and
an obstructed in-board path segment is likewise reported before the
out-of-range subscript); and a negative coordinate ≥ -7 is silently wrapped
to count from the opposite edge, addressing the real cell at coordinate + 7. -/
theorem c10_amended_no_bounds_validation :
    (∀ (s : Halali) (x y : Int), s.cards.length = 7 → s.can_play = true → 7 ≤ x →
      (s.attempt_reveal (x, y) false).1 = .error .indexError) ∧
    (∀ (s : Halali) (x y : Int), s.cards.length = 7 → s.can_play = true → 7 ≤ x →
      (s.attempt_rescue (x, y) false).1 = .error .indexError) ∧
    (∀ (s : Halali) (x y : Int), s.cards.length = 7 → s.can_play = true → 7 ≤ x →
      (s.attempt_move (x, y) (x, y + 1) false).1 = .error .indexError) ∧
    (∀ (g : Grid) (x y : Int), g.length = 7 → -7 ≤ x → x < 0 →
      getCell g x y = getCell g (x + 7) y) ∧
    (∀ (g : Grid) (x y : Int), g.length = 7 → (∀ row ∈ g, row.length = 7) →
      0 ≤ x → x < 7 → -7 ≤ y → y < 0 →
      getCell g x y = getCell g x (y + 7)) ∧
    (∀ (s : Halali) (x y : Int) (fe : Bool), s.cards.length = 7 → -7 ≤ x → x < 0 →
      s.validate_reveal x y fe = s.validate_reveal (x + 7) y fe) := by
  have hchk : ∀ s : Halali, s.can_play = true → s.check_can_play false = .ok () := by
    intro s hcp
    simp [Halali.check_can_play, hcp]
  refine ⟨?_, ?_, ?_, ?_, ?_, ?_⟩
  · intro s x y hlen hcp hx
    have hget := getCell_indexError_of_ge y hlen hx
    simp only [Halali.attempt_reveal, hchk s hcp, hget]
  · intro s x y hlen hcp hx
    have hget := getCell_indexError_of_ge y hlen hx
    simp only [Halali.attempt_rescue, hchk s hcp, hget]
  · intro s x y hlen hcp hx
    have hval : s.validate_move x y x (y + 1) false = .error .indexError := by
      unfold Halali.validate_move
      rw [if_neg (by omega : ¬(x = x ∧ y = y + 1))]
      rw [if_neg (by simp : ¬(x ≠ x ∧ y ≠ y + 1))]
      simp only [Bool.false_eq_true, if_false]
      rw [if_neg (by simp : ¬x ≠ x)]
      rw [min_eq_left (by omega : y ≤ y + 1), max_eq_right (by omega : y ≤ y + 1)]
      rw [intRange_nil (le_refl (y + 1))]
      simp only [List.map_nil]
      unfold checkClear validate_move_tail
      rw [getCell_indexError_of_ge y hlen hx]
    simp only [Halali.attempt_move, hchk s hcp, hval]
  · intro g x y hlen h1 h2
    exact getCell_neg_wrap_x y hlen h1 h2
  · intro g x y hlen hrows hx1 hx2 h1 h2
    exact getCell_neg_wrap_y hlen hrows hx1 hx2 h1 h2
  · intro s x y fe hlen h1 h2
    unfold Halali.validate_reveal
    rw [getCell_neg_wrap_x y hlen h1 h2]

theorem c10_amended_no_bounds_validation_witness :
    (sOutOfRange.attempt_reveal (7, 0) false).1 = .error .indexError ∧
    getCell emptyGrid (-1) 3 = getCell emptyGrid 6 3 := by
  refine ⟨?_, ?_⟩
  · exact c10_amended_no_bounds_validation.1 sOutOfRange 7 0 (by decide) (by decide)
      (by decide)
  · have h := c10_amended_no_bounds_validation.2.2.2.1 emptyGrid (-1) 3 (by decide)
      (by decide) (by decide)
    simpa using h

@[simp]
theorem withTeam_cards (s : Halali) (x : TeamSel) :
    ({ s with team := x } : Halali).cards = s.cards := rfl

@[simp]
theorem withTeam_to_play (s : Halali) (x : TeamSel) :
    ({ s with team := x } : Halali).to_play = s.to_play := rfl

@[simp]
theorem withTeam_points_humans (s : Halali) (x : TeamSel) :
    ({ s with team := x } : Halali).points_humans = s.points_humans := rfl

@[simp]
theorem withTeam_points_animals (s : Halali) (x : TeamSel) :
    ({ s with team := x } : Halali).points_animals = s.points_animals := rfl

@[simp]
theorem withTeam_turns_left (s : Halali) (x : TeamSel) :
    ({ s with team := x } : Halali).turns_left = s.turns_left := rfl

@[simp]
theorem withTeam_tiles_left (s : Halali) (x : TeamSel) :
    ({ s with team := x } : Halali).tiles_left = s.tiles_left := rfl

/-- Applying a serialized move on the peer engine (opposite team,
for_enemy=true) runs exactly the same validation as the issuing engine
(team t, for_enemy=false): the peer flips its own team back to t. -/
theorem validate_move_enemy_symm (s : Halali) (t : Team) (cx cy tx ty : Int) :
    Halali.validate_move { s with team := TeamSel.ofTeam t.other } cx cy tx ty true =
      Halali.validate_move { s with team := TeamSel.ofTeam t } cx cy tx ty false := by
  cases t <;> rfl

/-- The same symmetry for the rescue validation. -/
theorem validate_rescue_enemy_symm (s : Halali) (t : Team) (cx cy : Int) :
    Halali.validate_rescue { s with team := TeamSel.ofTeam t.other } cx cy true =
      Halali.validate_rescue { s with team := TeamSel.ofTeam t } cx cy false := by
  cases t <;> rfl

/-- The reveal validation ignores the team entirely. -/
theorem validate_reveal_enemy_symm (s : Halali) (t : Team) (cx cy : Int) :
    Halali.validate_reveal { s with team := TeamSel.ofTeam t.other } cx cy true =
      Halali.validate_reveal { s with team := TeamSel.ofTeam t } cx cy false := rfl

/-- The turn checks of the two engines accept and reject together (with
different reason strings on rejection). -/
theorem check_can_play_enemy_symm (s : Halali) (t : Team) :
    (Halali.check_can_play { s with team := TeamSel.ofTeam t } false = .ok () ∧
      Halali.check_can_play { s with team := TeamSel.ofTeam t.other } true = .ok ()) ∨
    (Halali.check_can_play { s with team := TeamSel.ofTeam t } false =
        .error (.invalidMove "Not your turn!") ∧
      Halali.check_can_play { s with team := TeamSel.ofTeam t.other } true =
        .error (.invalidMove "Not other player's turn!")) := by
  cases t <;> cases h : s.to_play <;>
    simp [Halali.check_can_play, Halali.can_play, TeamSel.matches, Team.other, h]

theorem attempt_move_enemy_symm (s : Halali) (t : Team) (a b : Int × Int) :
    ((Halali.attempt_move { s with team := TeamSel.ofTeam t } a b false).1 = .ok () ↔
      (Halali.attempt_move { s with team := TeamSel.ofTeam t.other } a b true).1 = .ok ()) ∧
    ((Halali.attempt_move { s with team := TeamSel.ofTeam t } a b false).1 = .ok () →
      (Halali.attempt_move { s with team := TeamSel.ofTeam t } a b false).2.obs =
        (Halali.attempt_move { s with team := TeamSel.ofTeam t.other } a b true).2.obs) := by
  rcases check_can_play_enemy_symm s t with ⟨hc1, hc2⟩ | ⟨hc1, hc2⟩
  · cases hv : Halali.validate_move { s with team := TeamSel.ofTeam t } a.1 a.2 b.1 b.2 false with
    | error e =>
      have hv2 : Halali.validate_move { s with team := TeamSel.ofTeam t.other }
          a.1 a.2 b.1 b.2 true = .error e := by
        rw [validate_move_enemy_symm]
        exact hv
      simp only [Halali.attempt_move, hc1, hc2, hv, hv2]
      simp
    | ok u =>
      cases u
      have hv2 : Halali.validate_move { s with team := TeamSel.ofTeam t.other }
          a.1 a.2 b.1 b.2 true = .ok () := by
        rw [validate_move_enemy_symm]
        exact hv
      cases hg : getCell s.cards b.1 b.2 with
      | error e =>
        simp only [Halali.attempt_move, hc1, hc2, hv, hv2, withTeam_cards, hg]
        simp
      | ok target =>
        cases target with
        | none =>
          cases hg2 : getCell s.cards a.1 a.2 with
          | error e =>
            simp only [Halali.attempt_move, hc1, hc2, hv, hv2, withTeam_cards, hg, hg2]
            simp
          | ok moving =>
            simp only [Halali.attempt_move, hc1, hc2, hv, hv2, withTeam_cards, hg, hg2]
            refine ⟨by simp, fun _ => ?_⟩
            simp [Halali.obs, swap_teams_turns_left]
        | some tcard =>
          cases hg2 : getCell s.cards a.1 a.2 with
          | error e =>
            simp only [Halali.attempt_move, hc1, hc2, hv, hv2, withTeam_cards,
              withTeam_to_play, addPoints_cards, hg, hg2]
            simp
          | ok moving =>
            simp only [Halali.attempt_move, hc1, hc2, hv, hv2, withTeam_cards,
              withTeam_to_play, addPoints_cards, hg, hg2]
            refine ⟨by simp, fun _ => ?_⟩
            cases hp : s.to_play <;>
              simp [Halali.obs, swap_teams_turns_left, Halali.addPoints, hp]
  · simp only [Halali.attempt_move, hc1, hc2]
    simp

theorem attempt_reveal_enemy_symm (s : Halali) (t : Team) (loc : Int × Int) :
    ((Halali.attempt_reveal { s with team := TeamSel.ofTeam t } loc false).1 = .ok () ↔
      (Halali.attempt_reveal { s with team := TeamSel.ofTeam t.other } loc true).1 = .ok ()) ∧
    ((Halali.attempt_reveal { s with team := TeamSel.ofTeam t } loc false).1 = .ok () →
      (Halali.attempt_reveal { s with team := TeamSel.ofTeam t } loc false).2.obs =
        (Halali.attempt_reveal { s with team := TeamSel.ofTeam t.other } loc true).2.obs) := by
  rcases check_can_play_enemy_symm s t with ⟨hc1, hc2⟩ | ⟨hc1, hc2⟩
  · cases hg : getCell s.cards loc.1 loc.2 with
    | error e =>
      simp only [Halali.attempt_reveal, hc1, hc2, withTeam_cards, hg]
      simp
    | ok card =>
      cases hvv : Halali.validate_reveal { s with team := TeamSel.ofTeam t }
          loc.1 loc.2 false with
      | error e =>
        have hv2 : Halali.validate_reveal { s with team := TeamSel.ofTeam t.other }
            loc.1 loc.2 true = .error e := by
          rw [validate_reveal_enemy_symm]
          exact hvv
        simp only [Halali.attempt_reveal, hc1, hc2, withTeam_cards, hg, hvv, hv2]
        simp
      | ok u =>
        cases u
        have hv2 : Halali.validate_reveal { s with team := TeamSel.ofTeam t.other }
            loc.1 loc.2 true = .ok () := by
          rw [validate_reveal_enemy_symm]
          exact hvv
        simp only [Halali.attempt_reveal, hc1, hc2, withTeam_cards, withTeam_tiles_left,
          hg, hvv, hv2]
        refine ⟨by simp, fun _ => ?_⟩
        simp [Halali.obs, swap_teams_turns_left]
  · simp only [Halali.attempt_reveal, hc1, hc2]
    simp

theorem attempt_rescue_enemy_symm (s : Halali) (t : Team) (loc : Int × Int) :
    ((Halali.attempt_rescue { s with team := TeamSel.ofTeam t } loc false).1 = .ok () ↔
      (Halali.attempt_rescue { s with team := TeamSel.ofTeam t.other } loc true).1 = .ok ()) ∧
    ((Halali.attempt_rescue { s with team := TeamSel.ofTeam t } loc false).1 = .ok () →
      (Halali.attempt_rescue { s with team := TeamSel.ofTeam t } loc false).2.obs =
        (Halali.attempt_rescue { s with team := TeamSel.ofTeam t.other } loc true).2.obs) := by
  rcases check_can_play_enemy_symm s t with ⟨hc1, hc2⟩ | ⟨hc1, hc2⟩
  · cases hg : getCell s.cards loc.1 loc.2 with
    | error e =>
      simp only [Halali.attempt_rescue, hc1, hc2, withTeam_cards, hg]
      simp
    | ok card =>
      cases hvv : Halali.validate_rescue { s with team := TeamSel.ofTeam t }
          loc.1 loc.2 false with
      | error e =>
        have hv2 : Halali.validate_rescue { s with team := TeamSel.ofTeam t.other }
            loc.1 loc.2 true = .error e := by
          rw [validate_rescue_enemy_symm]
          exact hvv
        simp only [Halali.attempt_rescue, hc1, hc2, withTeam_cards, hg, hvv, hv2]
        simp
      | ok u =>
        cases u
        have hv2 : Halali.validate_rescue { s with team := TeamSel.ofTeam t.other }
            loc.1 loc.2 true = .ok () := by
          rw [validate_rescue_enemy_symm]
          exact hvv
        cases card with
        | none =>
          simp only [Halali.attempt_rescue, hc1, hc2, withTeam_cards, hg, hvv, hv2]
          simp
        | some c =>
          simp only [Halali.attempt_rescue, hc1, hc2, withTeam_cards, withTeam_to_play,
            hg, hvv, hv2]
          refine ⟨by simp, fun _ => ?_⟩
          cases hp : s.to_play <;>
            simp [Halali.obs, swap_teams_turns_left, Halali.addPoints, hp]
  · simp only [Halali.attempt_rescue, hc1, hc2]
    simp

/-- C2: two engines dealt the same board and in the same shared state — one
playing team t and applying an operation locally (for_enemy=false), the other
playing the opposite team and applying the same serialized operation
(for_enemy=true) — either both reject the operation or both accept it, and on
acceptance their boards, scores, to_play, tiles_left and turns_left coincide. -/
theorem c2_engines_stay_in_lockstep :
    ∀ (s : Halali) (t : Team) (a b loc : Int × Int),
      (((Halali.attempt_move { s with team := TeamSel.ofTeam t } a b false).1 = .ok () ↔
        (Halali.attempt_move { s with team := TeamSel.ofTeam t.other } a b true).1 = .ok ()) ∧
       ((Halali.attempt_move { s with team := TeamSel.ofTeam t } a b false).1 = .ok () →
        (Halali.attempt_move { s with team := TeamSel.ofTeam t } a b false).2.obs =
          (Halali.attempt_move { s with team := TeamSel.ofTeam t.other } a b true).2.obs)) ∧
      (((Halali.attempt_reveal { s with team := TeamSel.ofTeam t } loc false).1 = .ok () ↔
        (Halali.attempt_reveal { s with team := TeamSel.ofTeam t.other } loc true).1 = .ok ()) ∧
       ((Halali.attempt_reveal { s with team := TeamSel.ofTeam t } loc false).1 = .ok () →
        (Halali.attempt_reveal { s with team := TeamSel.ofTeam t } loc false).2.obs =
          (Halali.attempt_reveal { s with team := TeamSel.ofTeam t.other } loc true).2.obs)) ∧
      (((Halali.attempt_rescue { s with team := TeamSel.ofTeam t } loc false).1 = .ok () ↔
        (Halali.attempt_rescue { s with team := TeamSel.ofTeam t.other } loc true).1 = .ok ()) ∧
       ((Halali.attempt_rescue { s with team := TeamSel.ofTeam t } loc false).1 = .ok () →
        (Halali.attempt_rescue { s with team := TeamSel.ofTeam t } loc false).2.obs =
          (Halali.attempt_rescue { s with team := TeamSel.ofTeam t.other } loc true).2.obs)) :=
  fun s t a b loc =>
    ⟨attempt_move_enemy_symm s t a b, attempt_reveal_enemy_symm s t loc,
      attempt_rescue_enemy_symm s t loc⟩

/-- A shared mid-game state: face-up duck at (0,0), face-up fox at (3,0),
animals to play. -/
def sLockstep : Halali :=
  ⟨Team.animals, TeamSel.both,
    setCell (setCell emptyGrid 0 0 (some ⟨Kind.duck, Facing.up, none, false⟩))
      3 0 (some ⟨Kind.fox, Facing.up, none, false⟩),
    0, 0, none, 40⟩

theorem c2_engines_stay_in_lockstep_witness :
    (Halali.attempt_move { sLockstep with team := TeamSel.ofTeam Team.animals }
        (3, 0) (0, 0) false).1 = .ok () ∧
    (Halali.attempt_move { sLockstep with team := TeamSel.ofTeam Team.animals.other }
        (3, 0) (0, 0) true).1 = .ok () ∧
    (Halali.attempt_move { sLockstep with team := TeamSel.ofTeam Team.animals }
        (3, 0) (0, 0) false).2.obs =
      (Halali.attempt_move { sLockstep with team := TeamSel.ofTeam Team.animals.other }
        (3, 0) (0, 0) true).2.obs := by
  have h := (c2_engines_stay_in_lockstep sLockstep Team.animals (3, 0) (0, 0) (0, 0)).1
  exact ⟨by decide, h.1.mp (by decide), h.2 (by decide)⟩

theorem validate_move_tail_ok_iff (g : Grid) (cx cy tx ty : Int) (tm : Team)
    (moving : String) (dist : Int) :
    validate_move_tail g cx cy tx ty (TeamSel.ofTeam tm) moving dist = .ok () ↔
    ∃ c, getCell g cx cy = .ok (some c) ∧
      ¬(c.kind.slow = true ∧ 1 < dist) ∧
      c.kind.immovable = false ∧
      MOVABLE_FOR tm c.kind = true ∧
      c.facing = Facing.up ∧
      ∃ o, getCell g tx ty = .ok o ∧
        (o = none ∨ ∃ tc, o = some tc ∧ tc.facing = Facing.up ∧
          tc.kind ∈ c.kind.eats ∧
          (c.directional = true → c.variant = some moving)) := by
  unfold validate_move_tail
  cases hs : getCell g cx cy with
  | error e => simp
  | ok oc =>
    cases oc with
    | none => simp
    | some card =>
      dsimp only
      simp only [Except.ok.injEq, Option.some.injEq, exists_eq_left']
      by_cases h1 : card.kind.slow = true ∧ 1 < dist
      · rw [if_pos h1]
        simp [h1]
      · rw [if_neg h1]
        by_cases h2 : card.kind.immovable = true
        · rw [if_pos h2]
          simp [h1, h2]
        · rw [if_neg h2]
          try dsimp only
          by_cases h3 : MOVABLE_FOR tm card.kind = true
          · rw [if_neg (not_not_intro h3)]
            by_cases h4 : card.facing = Facing.up
            · rw [if_neg (not_not_intro h4)]
              cases ht : getCell g tx ty with
              | error e => simp [h1, h2, h3, h4]
              | ok ot =>
                cases ot with
                | none => simp [h1, h2, h3, h4]
                | some target =>
                  try dsimp only
                  by_cases h5 : target.facing = Facing.up
                  · rw [if_neg (not_not_intro h5)]
                    by_cases h6 : target.kind ∈ card.kind.eats
                    · rw [if_neg (not_not_intro h6)]
                      by_cases h7 : card.directional = true
                      · rw [if_pos h7]
                        cases hv : card.variant with
                        | none => simp [h1, h2, h3, h4, h5, h6, h7, hv]
                        | some v =>
                          try dsimp only
                          by_cases h8 : moving = v
                          · rw [if_neg (not_not_intro h8)]
                            simp [h1, h2, h3, h4, h5, h6, h7, hv, h8]
                          · rw [if_pos h8]
                            simp only [h1, h2, h3, h4, h5, h6, h7, hv]
                            constructor
                            · intro hc
                              exact Except.noConfusion hc
                            · rintro ⟨_, _, _, _, o, hok, hcap⟩
                              injection hok with hok2
                              rcases hcap with hnone | ⟨tc, htc, _, _, hvar⟩
                              · rw [← hok2] at hnone
                                exact Option.noConfusion hnone
                              · have h10 := hvar trivial
                                injection h10 with h11
                                exact (h8 h11.symm).elim
                      · rw [if_neg h7]
                        simp [h1, h2, h3, h4, h5, h6, h7]
                    · rw [if_pos h6]
                      simp [h1, h2, h3, h4, h5, h6]
                  · rw [if_pos h5]
                    simp [h1, h2, h3, h4, h5]
            · rw [if_pos h4]
              simp [h4]
          · rw [if_pos h3]
            simp [h3]

theorem intRange_mem {a b p : Int} (h : p ∈ intRange a b) : a ≤ p ∧ p < b := by
  unfold intRange at h
  obtain ⟨k, hk, hp⟩ := List.mem_map.1 h
  rw [List.mem_range] at hk
  have hc : Int.ofNat k = (k : Int) := rfl
  rw [hc] at hp
  omega

theorem checkClear_cases (g : Grid) :
    ∀ L : List (Int × Int),
      (∀ p ∈ L, ∃ o, getCell g p.1 p.2 = .ok o) →
      (checkClear g L = .ok () ∧ ∀ p ∈ L, getCell g p.1 p.2 = .ok none) ∨
      (checkClear g L = .error (.invalidMove "Path obstructed") ∧
        ¬ ∀ p ∈ L, getCell g p.1 p.2 = .ok none)
  | [], _ => Or.inl ⟨rfl, by simp⟩
  | (x, y) :: rest, hin => by
    obtain ⟨o, ho⟩ := hin (x, y) (List.mem_cons_self _ _)
    cases o with
    | some c =>
      refine Or.inr ⟨by simp only [checkClear, ho], fun hall => ?_⟩
      have h2 := hall (x, y) (List.mem_cons_self _ _)
      rw [ho] at h2
      injection h2 with h3
      exact Option.noConfusion h3
    | none =>
      rcases checkClear_cases g rest (fun p hp => hin p (List.mem_cons_of_mem _ hp)) with
        ⟨h1, h2⟩ | ⟨h1, h2⟩
      · refine Or.inl ⟨by simp only [checkClear, ho, h1], fun p hp => ?_⟩
        rcases List.mem_cons.1 hp with rfl | hp2
        · exact ho
        · exact h2 p hp2
      · refine Or.inr ⟨by simp only [checkClear, ho, h1], fun hall => ?_⟩
        exact h2 fun p hp => hall p (List.mem_cons_of_mem _ hp)

theorem getCell_eq_cellAt {g : Grid} {x y : Int} (hlen : g.length = 7)
    (hrows : ∀ row ∈ g, row.length = 7)
    (hx1 : 0 ≤ x) (hx2 : x < 7) (hy1 : 0 ≤ y) (hy2 : y < 7) :
    getCell g x y = .ok (cellAt g x y) := by
  unfold getCell pyGet cellAt cellAtP
  rw [hlen, pyIdx_of_lt hx1 (by exact_mod_cast hx2)]
  simp only [bind, Except.bind]
  cases hrow : g.get? x.toNat with
  | none =>
    rw [List.get?_eq_none] at hrow
    rw [hlen] at hrow
    omega
  | some row =>
    have hrl : row.length = 7 := hrows row (mem_of_get?_eq hrow)
    simp only [hrow, hrl]
    rw [pyIdx_of_lt hy1 (by exact_mod_cast hy2)]
    cases hcell : row.get? y.toNat with
    | none =>
      rw [List.get?_eq_none] at hcell
      rw [hrl] at hcell
      omega
    | some o =>
      simp only [Option.some_bind, hcell]
      rfl

theorem validate_move_ok_unfold (s : Halali) (t : Team) (cx cy tx ty : Int)
    (hteam : s.team = TeamSel.ofTeam t) :
    s.validate_move cx cy tx ty false = .ok () ↔
      (¬(cx = tx ∧ cy = ty) ∧ ¬(cx ≠ tx ∧ cy ≠ ty) ∧
       checkClear s.cards (betweenCells cx cy tx ty) = .ok () ∧
       validate_move_tail s.cards cx cy tx ty (TeamSel.ofTeam t)
         (travelDir cx cy tx ty)
         (if cx ≠ tx then max cx tx - min cx tx else max cy ty - min cy ty) = .ok ()) := by
  unfold Halali.validate_move
  unfold betweenCells travelDir
  by_cases e1 : cx = tx ∧ cy = ty
  · rw [if_pos e1]
    simp [e1]
  · rw [if_neg e1]
    by_cases e2 : cx ≠ tx ∧ cy ≠ ty
    · rw [if_pos e2]
      simp [e1, e2]
    · rw [if_neg e2]
      rw [hteam]
      dsimp only
      by_cases e3 : cx ≠ tx
      · rw [if_pos e3, if_pos e3, if_pos e3, if_pos e3]
        cases hcc : checkClear s.cards
            ((intRange (min cx tx + 1) (max cx tx)).map fun i => (i, cy)) with
        | error e => simp [e1, e2, hcc]
        | ok u =>
          cases u
          simp [e1, e2, hcc]
      · rw [if_neg e3, if_neg e3, if_neg e3, if_neg e3]
        cases hcc : checkClear s.cards
            ((intRange (min cy ty + 1) (max cy ty)).map fun i => (cx, i)) with
        | error e => simp [e1, e2, hcc]
        | ok u =>
          cases u
          simp [e1, e2, hcc]

theorem MOVABLE_FOR_eq_true (t : Team) (k : Kind) :
    MOVABLE_FOR t k = true ↔
      (k.immovable = false ∧ (k.teamOf = none ∨ k.teamOf = some t)) := by
  cases k <;> cases t <;> decide

theorem validate_move_tail_err_invalid {g : Grid} {cx cy tx ty : Int} {tm : Team}
    {moving : String} {dist : Int} {e : Err}
    (hsrc : ∃ o, getCell g cx cy = .ok o)
    (htgt : ∃ o, getCell g tx ty = .ok o)
    (hdir : ∀ c, getCell g cx cy = .ok (some c) → dirOkCell (some c) = true)
    (h : validate_move_tail g cx cy tx ty (TeamSel.ofTeam tm) moving dist = .error e) :
    ∃ r, e = .invalidMove r := by
  obtain ⟨o, ho⟩ := hsrc
  unfold validate_move_tail at h
  split at h
  next e2 heq =>
    rw [ho] at heq
    exact Except.noConfusion heq
  next heq =>
    injection h with h2
    exact ⟨_, h2.symm⟩
  next card heq =>
    rw [ho] at heq
    injection heq with heq2
    subst heq2
    have hd := hdir card ho
    simp only [dirOkCell, Bool.or_eq_true, Bool.not_eq_true'] at hd
    by_cases h1 : card.kind.slow = true ∧ 1 < dist
    · rw [if_pos h1] at h
      injection h with h2
      exact ⟨_, h2.symm⟩
    · rw [if_neg h1] at h
      by_cases h2 : card.kind.immovable = true
      · rw [if_pos h2] at h
        injection h with h3
        exact ⟨_, h3.symm⟩
      · rw [if_neg h2] at h
        split at h
        next heqt => exact TeamSel.noConfusion heqt
        next tm2 heqt =>
          injection heqt with heqt2
          by_cases h3 : MOVABLE_FOR tm2 card.kind = true
          · rw [if_neg (not_not_intro h3)] at h
            by_cases h4 : card.facing = Facing.up
            · rw [if_neg (not_not_intro h4)] at h
              obtain ⟨ot, hot⟩ := htgt
              split at h
              next e3 heq4 =>
                rw [hot] at heq4
                exact Except.noConfusion heq4
              next heq4 => exact Except.noConfusion h
              next target heq4 =>
                by_cases h5 : target.facing = Facing.up
                · rw [if_neg (not_not_intro h5)] at h
                  by_cases h6 : target.kind ∈ card.kind.eats
                  · rw [if_neg (not_not_intro h6)] at h
                    by_cases h7 : card.directional = true
                    · rw [if_pos h7] at h
                      split at h
                      next heqv =>
                        rcases hd with hd1 | hd2
                        · exact absurd h7 (by rw [hd1]; simp)
                        · rw [heqv] at hd2
                          exact absurd hd2 (by simp)
                      next v heqv =>
                        by_cases h8 : moving = v
                        · rw [if_neg (not_not_intro h8)] at h
                          exact Except.noConfusion h
                        · rw [if_pos h8] at h
                          injection h with h9
                          exact ⟨_, h9.symm⟩
                    · rw [if_neg h7] at h
                      exact Except.noConfusion h
                  · rw [if_pos h6] at h
                    injection h with h7
                    exact ⟨_, h7.symm⟩
                · rw [if_pos h5] at h
                  injection h with h6
                  exact ⟨_, h6.symm⟩
            · rw [if_pos h4] at h
              injection h with h5
              exact ⟨_, h5.symm⟩
          · rw [if_pos h3] at h
            injection h with h4
            exact ⟨_, h4.symm⟩

theorem dirOk_of_DirWf {g : Grid} (hdirwf : DirWf g) :
    ∀ {x y : Int} (c : Card), getCell g x y = .ok (some c) → dirOkCell (some c) = true := by
  intro x y c hc
  obtain ⟨i, row, j, hi, hrow, hj, hcell⟩ := getCell_ok_parts hc
  exact hdirwf row (mem_of_get?_eq hrow) (some c) (mem_of_get?_eq hcell)

theorem betweenCells_in_grid {g : Grid} {cx cy tx ty : Int} (hwf : WfGrid g)
    (hcx1 : 0 ≤ cx) (hcx2 : cx < 7) (hcy1 : 0 ≤ cy) (hcy2 : cy < 7)
    (htx1 : 0 ≤ tx) (htx2 : tx < 7) (hty1 : 0 ≤ ty) (hty2 : ty < 7) :
    ∀ p ∈ betweenCells cx cy tx ty, ∃ o, getCell g p.1 p.2 = .ok o := by
  intro p hp
  unfold betweenCells at hp
  by_cases e3 : cx ≠ tx
  · rw [if_pos e3] at hp
    obtain ⟨i, hi, hpi⟩ := List.mem_map.1 hp
    have hr := intRange_mem hi
    rw [← hpi]
    exact ⟨_, getCell_eq_cellAt hwf.1 hwf.2 (by omega) (by omega) hcy1 hcy2⟩
  · rw [if_neg e3] at hp
    obtain ⟨i, hi, hpi⟩ := List.mem_map.1 hp
    have hr := intRange_mem hi
    rw [← hpi]
    exact ⟨_, getCell_eq_cellAt hwf.1 hwf.2 hcx1 hcx2 (by omega) (by omega)⟩

theorem validate_move_err_invalid (s : Halali) (t : Team) (cx cy tx ty : Int) {e : Err}
    (hteam : s.team = TeamSel.ofTeam t) (hwf : WfGrid s.cards) (hdirwf : DirWf s.cards)
    (hcx1 : 0 ≤ cx) (hcx2 : cx < 7) (hcy1 : 0 ≤ cy) (hcy2 : cy < 7)
    (htx1 : 0 ≤ tx) (htx2 : tx < 7) (hty1 : 0 ≤ ty) (hty2 : ty < 7)
    (h : s.validate_move cx cy tx ty false = .error e) :
    ∃ r, e = .invalidMove r := by
  have hsrc : ∃ o, getCell s.cards cx cy = .ok o :=
    ⟨_, getCell_eq_cellAt hwf.1 hwf.2 hcx1 hcx2 hcy1 hcy2⟩
  have htgt : ∃ o, getCell s.cards tx ty = .ok o :=
    ⟨_, getCell_eq_cellAt hwf.1 hwf.2 htx1 htx2 hty1 hty2⟩
  have hin := betweenCells_in_grid (g := s.cards) hwf hcx1 hcx2 hcy1 hcy2 htx1 htx2 hty1 hty2
  unfold Halali.validate_move at h
  by_cases e1 : cx = tx ∧ cy = ty
  · rw [if_pos e1] at h
    injection h with h2
    exact ⟨_, h2.symm⟩
  · rw [if_neg e1] at h
    by_cases e2 : cx ≠ tx ∧ cy ≠ ty
    · rw [if_pos e2] at h
      injection h with h2
      exact ⟨_, h2.symm⟩
    · rw [if_neg e2] at h
      rw [hteam] at h
      dsimp only at h
      by_cases e3 : cx ≠ tx
      · rw [if_pos e3] at h
        have hbc : betweenCells cx cy tx ty =
            (intRange (min cx tx + 1) (max cx tx)).map (fun i => (i, cy)) := by
          unfold betweenCells
          rw [if_pos e3]
        rw [hbc] at hin
        rcases checkClear_cases s.cards _ hin with ⟨hcc, _⟩ | ⟨hcc, _⟩
        · rw [hcc] at h
          exact validate_move_tail_err_invalid hsrc htgt
            (fun c hc => dirOk_of_DirWf hdirwf c hc) h
        · rw [hcc] at h
          injection h with h2
          exact ⟨_, h2.symm⟩
      · rw [if_neg e3] at h
        have hbc : betweenCells cx cy tx ty =
            (intRange (min cy ty + 1) (max cy ty)).map (fun i => (cx, i)) := by
          unfold betweenCells
          rw [if_neg e3]
        rw [hbc] at hin
        rcases checkClear_cases s.cards _ hin with ⟨hcc, _⟩ | ⟨hcc, _⟩
        · rw [hcc] at h
          exact validate_move_tail_err_invalid hsrc htgt
            (fun c hc => dirOk_of_DirWf hdirwf c hc) h
        · rw [hcc] at h
          injection h with h2
          exact ⟨_, h2.symm⟩

theorem attempt_move_ok_iff_validate (s : Halali) (a b : Int × Int)
    (hchk : s.check_can_play false = .ok ()) (hwf : WfGrid s.cards)
    (ha1 : 0 ≤ a.1) (ha2 : a.1 < 7) (ha3 : 0 ≤ a.2) (ha4 : a.2 < 7)
    (hb1 : 0 ≤ b.1) (hb2 : b.1 < 7) (hb3 : 0 ≤ b.2) (hb4 : b.2 < 7) :
    (s.attempt_move a b false).1 = .ok () ↔
      s.validate_move a.1 a.2 b.1 b.2 false = .ok () := by
  constructor
  · intro h
    rcases attempt_move_cases s a b false with ⟨_, hv, _⟩ | ⟨h1, _⟩
    · exact hv
    · exact absurd h h1
  · intro hv
    have htgt := getCell_eq_cellAt (g := s.cards) hwf.1 hwf.2 hb1 hb2 hb3 hb4
    have hsrc := getCell_eq_cellAt (g := s.cards) hwf.1 hwf.2 ha1 ha2 ha3 ha4
    cases hct : cellAt s.cards b.1 b.2 with
    | none =>
      rw [hct] at htgt
      cases hcs : cellAt s.cards a.1 a.2 with
      | none =>
        rw [hcs] at hsrc
        simp only [Halali.attempt_move, hchk, hv, htgt, hsrc]
      | some mc =>
        rw [hcs] at hsrc
        simp only [Halali.attempt_move, hchk, hv, htgt, hsrc]
    | some tc =>
      rw [hct] at htgt
      cases hcs : cellAt s.cards a.1 a.2 with
      | none =>
        rw [hcs] at hsrc
        simp only [Halali.attempt_move, hchk, hv, htgt, addPoints_cards, hsrc]
      | some mc =>
        rw [hcs] at hsrc
        simp only [Halali.attempt_move, hchk, hv, htgt, addPoints_cards, hsrc]

theorem straight_dist_eq {cx cy tx ty : Int} (he2 : ¬(cx ≠ tx ∧ cy ≠ ty)) :
    (if cx ≠ tx then max cx tx - min cx tx else max cy ty - min cy ty) =
      |cx - tx| + |cy - ty| := by
  by_cases e3 : cx ≠ tx
  · have hy : cy = ty := by
      by_contra hne
      exact he2 ⟨e3, hne⟩
    rw [if_pos e3, hy, max_sub_min_eq_abs, sub_self, abs_zero, add_zero]
    exact abs_sub_comm _ _
  · rw [if_neg e3, of_not_not e3, sub_self, abs_zero, zero_add, max_sub_min_eq_abs]
    exact abs_sub_comm _ _

theorem betweenCells_bounds {cx cy tx ty : Int}
    (hcx1 : 0 ≤ cx) (hcx2 : cx < 7) (hcy1 : 0 ≤ cy) (hcy2 : cy < 7)
    (htx1 : 0 ≤ tx) (htx2 : tx < 7) (hty1 : 0 ≤ ty) (hty2 : ty < 7) :
    ∀ p ∈ betweenCells cx cy tx ty, 0 ≤ p.1 ∧ p.1 < 7 ∧ 0 ≤ p.2 ∧ p.2 < 7 := by
  intro p hp
  unfold betweenCells at hp
  by_cases e3 : cx ≠ tx
  · rw [if_pos e3] at hp
    obtain ⟨i, hi, hpi⟩ := List.mem_map.1 hp
    have hr := intRange_mem hi
    rw [← hpi]
    refine ⟨by omega, by omega, hcy1, hcy2⟩
  · rw [if_neg e3] at hp
    obtain ⟨i, hi, hpi⟩ := List.mem_map.1 hp
    have hr := intRange_mem hi
    rw [← hpi]
    refine ⟨hcx1, hcx2, by omega, by omega⟩

theorem validate_move_iff_legal (s : Halali) (t : Team) (cx cy tx ty : Int)
    (hteam : s.team = TeamSel.ofTeam t) (hwf : WfGrid s.cards)
    (hcx1 : 0 ≤ cx) (hcx2 : cx < 7) (hcy1 : 0 ≤ cy) (hcy2 : cy < 7)
    (htx1 : 0 ≤ tx) (htx2 : tx < 7) (hty1 : 0 ≤ ty) (hty2 : ty < 7) :
    s.validate_move cx cy tx ty false = .ok () ↔
      MoveLegalSpec s.cards t cx cy tx ty := by
  have hin := betweenCells_in_grid (g := s.cards) hwf hcx1 hcx2 hcy1 hcy2 htx1 htx2 hty1 hty2
  have hpb := betweenCells_bounds hcx1 hcx2 hcy1 hcy2 htx1 htx2 hty1 hty2
  have hsrcg := getCell_eq_cellAt (g := s.cards) hwf.1 hwf.2 hcx1 hcx2 hcy1 hcy2
  have htgtg := getCell_eq_cellAt (g := s.cards) hwf.1 hwf.2 htx1 htx2 hty1 hty2
  rw [validate_move_ok_unfold s t cx cy tx ty hteam, validate_move_tail_ok_iff]
  unfold MoveLegalSpec
  constructor
  · rintro ⟨he1, he2, hcc, c, hcg, hslow, himm, hmov, hface, o, hog, hcap⟩
    have hcs : cellAt s.cards cx cy = some c := by
      have h2 := hsrcg.symm.trans hcg
      injection h2
    have hco : cellAt s.cards tx ty = o := by
      have h2 := htgtg.symm.trans hog
      injection h2
    have hstraight : cx = tx ∨ cy = ty := by
      by_cases hxx : cx = tx
      · exact Or.inl hxx
      · right
        by_contra hyy
        exact he2 ⟨hxx, hyy⟩
    obtain ⟨himm2, hdisj⟩ := (MOVABLE_FOR_eq_true t c.kind).mp hmov
    refine ⟨he1, hstraight, ?_, c, hcs, hface, himm2, hdisj, ?_, ?_⟩
    · intro p hp
      rcases checkClear_cases s.cards _ hin with ⟨_, hall⟩ | ⟨hcc2, _⟩
      · have hg := hall p hp
        obtain ⟨b1, b2, b3, b4⟩ := hpb p hp
        have hpe := getCell_eq_cellAt (g := s.cards) hwf.1 hwf.2 b1 b2 b3 b4
        have h2 := hpe.symm.trans hg
        injection h2
      · rw [hcc] at hcc2
        exact absurd hcc2 (by simp)
    · intro hs
      rw [straight_dist_eq he2] at hslow
      by_contra hgt
      exact hslow ⟨hs, by omega⟩
    · rcases hcap with rfl | ⟨tc, rfl, htf, hte, hvar⟩
      · exact Or.inl hco
      · exact Or.inr ⟨tc, hco, htf, hte, hvar⟩
  · rintro ⟨he1, hstraight, hclear, c, hcs, hface, himm, hdisj, hslow, hdest⟩
    have he2 : ¬(cx ≠ tx ∧ cy ≠ ty) := by
      rintro ⟨hxx, hyy⟩
      rcases hstraight with h | h
      · exact hxx h
      · exact hyy h
    have hallok : ∀ p ∈ betweenCells cx cy tx ty, getCell s.cards p.1 p.2 = .ok none := by
      intro p hp
      obtain ⟨b1, b2, b3, b4⟩ := hpb p hp
      have hpe := getCell_eq_cellAt (g := s.cards) hwf.1 hwf.2 b1 b2 b3 b4
      rw [hpe, hclear p hp]
    have hcc : checkClear s.cards (betweenCells cx cy tx ty) = .ok () := by
      rcases checkClear_cases s.cards _ hin with ⟨h1, _⟩ | ⟨_, h2⟩
      · exact h1
      · exact absurd hallok h2
    refine ⟨he1, he2, hcc, c, by rw [hsrcg, hcs], ?_, himm,
      (MOVABLE_FOR_eq_true t c.kind).mpr ⟨himm, hdisj⟩, hface,
      cellAt s.cards tx ty, htgtg, ?_⟩
    · rintro ⟨hs, hd⟩
      have h2 := hslow hs
      rw [straight_dist_eq he2] at hd
      omega
    · rcases hdest with hnone | ⟨tc, htc, htf, hte, hvar⟩
      · exact Or.inl hnone
      · exact Or.inr ⟨tc, htc, htf, hte, hvar⟩

/-- C3: with the acting team at the board (concrete team, its turn, in-range
coordinates on a well-formed 7×7 board whose directional cards carry their
variants), attempt_move(from, to) succeeds exactly when the claim's
conditions all hold — distinct cells, straight line, clear path strictly in
between, face-up source movable by the acting team, slow kinds moving at most
one cell, and an empty destination or a legal (direction-respecting) capture
— and raises the typed InvalidMove error otherwise. -/
theorem c3_attempt_move_iff_spec :
    ∀ (s : Halali) (t : Team) (a b : Int × Int),
      s.team = TeamSel.ofTeam t → s.to_play = t →
      WfGrid s.cards → DirWf s.cards →
      0 ≤ a.1 → a.1 < 7 → 0 ≤ a.2 → a.2 < 7 →
      0 ≤ b.1 → b.1 < 7 → 0 ≤ b.2 → b.2 < 7 →
      (((s.attempt_move a b false).1 = .ok ()) ↔
        MoveLegalSpec s.cards t a.1 a.2 b.1 b.2) ∧
      (¬ MoveLegalSpec s.cards t a.1 a.2 b.1 b.2 →
        ∃ r, (s.attempt_move a b false).1 = .error (.invalidMove r)) := by
  intro s t a b hteam hplay hwf hdir ha1 ha2 ha3 ha4 hb1 hb2 hb3 hb4
  have hchk : s.check_can_play false = .ok () := by
    simp [Halali.check_can_play, Halali.can_play, hteam, hplay, TeamSel.matches]
  have hiff1 := attempt_move_ok_iff_validate s a b hchk hwf ha1 ha2 ha3 ha4 hb1 hb2 hb3 hb4
  have hiff2 := validate_move_iff_legal s t a.1 a.2 b.1 b.2 hteam hwf
    ha1 ha2 ha3 ha4 hb1 hb2 hb3 hb4
  constructor
  · exact hiff1.trans hiff2
  · intro hns
    have hnok : s.validate_move a.1 a.2 b.1 b.2 false ≠ .ok () := fun h => hns (hiff2.mp h)
    cases hv : s.validate_move a.1 a.2 b.1 b.2 false with
    | ok u =>
      cases u
      exact absurd hv hnok
    | error e =>
      obtain ⟨r, hr⟩ := validate_move_err_invalid s t a.1 a.2 b.1 b.2 hteam hwf hdir
        ha1 ha2 ha3 ha4 hb1 hb2 hb3 hb4 hv
      rw [hr] at hv
      refine ⟨r, ?_⟩
      simp only [Halali.attempt_move, hchk, hv]

/-- The lockstep board with a concrete local team: fox at (3,0) can take the
duck at (0,0). -/
def sMoveLegal : Halali :=
  ⟨Team.animals, TeamSel.ofTeam Team.animals,
    setCell (setCell emptyGrid 0 0 (some ⟨Kind.duck, Facing.up, none, false⟩))
      3 0 (some ⟨Kind.fox, Facing.up, none, false⟩),
    0, 0, none, 40⟩

theorem c3_attempt_move_iff_spec_witness :
    ((sMoveLegal.attempt_move (3, 0) (0, 0) false).1 = .ok () ↔
      MoveLegalSpec sMoveLegal.cards Team.animals 3 0 0 0) ∧
    MoveLegalSpec sMoveLegal.cards Team.animals 3 0 0 0 ∧
    (sMoveLegal.attempt_move (3, 0) (0, 0) false).1 = .ok () := by
  have h := c3_attempt_move_iff_spec sMoveLegal Team.animals (3, 0) (0, 0) rfl rfl
    (by decide) (by decide) (by decide) (by decide) (by decide) (by decide)
    (by decide) (by decide) (by decide) (by decide)
  exact ⟨h.1, by decide, h.1.mpr (by decide)⟩

theorem rescue_loop_ok_iff (s : Halali) (cx cy : Int) :
    ∀ L : List (Int × Int × String),
      (∀ p ∈ L, ∀ e : Err, s.validate_move cx cy p.1 p.2.1 false = .error e →
        ∃ r, e = .invalidMove r) →
      (s.rescue_loop cx cy false L = .ok () ↔
        ∃ p ∈ L,
          (p.1 = cx ∧ p.2.1 = cy) ∨
          (s.validate_move cx cy p.1 p.2.1 false = .ok () ∧
            ((cx = p.1 ∧ p.2.2 = "x") ∨ (cy = p.2.1 ∧ p.2.2 = "y"))))
  | [], _ => by simp [Halali.rescue_loop]
  | (tx, ty, d) :: rest, hinv => by
    have ih := rescue_loop_ok_iff s cx cy rest
      (fun p hp => hinv p (List.mem_cons_of_mem _ hp))
    unfold Halali.rescue_loop
    by_cases h1 : tx = cx ∧ ty = cy
    · rw [if_pos h1]
      simp [h1]
    · rw [if_neg h1]
      cases hv : s.validate_move cx cy tx ty false with
      | ok u =>
        cases u
        dsimp only
        by_cases h2 : cx = tx ∧ d = "x"
        · rw [if_pos h2]
          simp only [List.mem_cons]
          constructor
          · intro _
            exact ⟨(tx, ty, d), Or.inl rfl, Or.inr ⟨hv, Or.inl h2⟩⟩
          · intro _
            trivial
        · rw [if_neg h2]
          by_cases h3 : cy = ty ∧ d = "y"
          · rw [if_pos h3]
            simp only [List.mem_cons]
            constructor
            · intro _
              exact ⟨(tx, ty, d), Or.inl rfl, Or.inr ⟨hv, Or.inr h3⟩⟩
            · intro _
              trivial
          · rw [if_neg h3]
            rw [ih]
            simp only [List.mem_cons]
            constructor
            · rintro ⟨p, hp, hcase⟩
              exact ⟨p, Or.inr hp, hcase⟩
            · rintro ⟨p, hp | hp, hcase⟩
              · rw [hp] at hcase
                rcases hcase with hl | ⟨_, haxis⟩
                · exact absurd hl h1
                · rcases haxis with ha | ha
                  · exact absurd ha h2
                  · exact absurd ha h3
              · exact ⟨p, hp, hcase⟩
      | error e =>
        obtain ⟨r, hr⟩ := hinv (tx, ty, d) (List.mem_cons_self _ _) e hv
        subst hr
        dsimp only
        rw [ih]
        simp only [List.mem_cons]
        constructor
        · rintro ⟨p, hp, hcase⟩
          exact ⟨p, Or.inr hp, hcase⟩
        · rintro ⟨p, hp | hp, hcase⟩
          · rw [hp] at hcase
            rcases hcase with hl | ⟨hok, _⟩
            · exact absurd hl h1
            · exact Except.noConfusion (hv.symm.trans hok)
          · exact ⟨p, hp, hcase⟩

/-- C4 amended: a rescue validates exactly when the cell holds a card of the
side to play and some exit entry accepts it — where an entry accepts when
the card already stands on that exit cell, or when the full move validation
(including the capture branch: the exit cells are ordinary on-board cells
that may hold cards) to that exit succeeds and the travel axis matches the
exit's direction tag ("x": vertical travel along the middle column, "y":
horizontal travel along the middle row). -/
theorem c4_amended_rescue_runs_full_move_validation :
    ∀ (s : Halali) (t : Team) (loc : Int × Int),
      s.team = TeamSel.ofTeam t → s.to_play = t →
      WfGrid s.cards → DirWf s.cards →
      0 ≤ loc.1 → loc.1 < 7 → 0 ≤ loc.2 → loc.2 < 7 →
      (s.validate_rescue loc.1 loc.2 false = .ok () ↔
        ∃ c, cellAt s.cards loc.1 loc.2 = some c ∧ c.kind.teamOf = some t ∧
          ∃ p ∈ rescue_possibilities,
            (p.1 = loc.1 ∧ p.2.1 = loc.2) ∨
            (s.validate_move loc.1 loc.2 p.1 p.2.1 false = .ok () ∧
              ((loc.1 = p.1 ∧ p.2.2 = "x") ∨ (loc.2 = p.2.1 ∧ p.2.2 = "y")))) := by
  intro s t loc hteam hplay hwf hdir hl1 hl2 hl3 hl4
  have hget := getCell_eq_cellAt (g := s.cards) hwf.1 hwf.2 hl1 hl2 hl3 hl4
  have hinv : ∀ p ∈ rescue_possibilities, ∀ e : Err,
      s.validate_move loc.1 loc.2 p.1 p.2.1 false = .error e →
      ∃ r, e = .invalidMove r := by
    intro p hp e hv
    have hb : 0 ≤ p.1 ∧ p.1 < 7 ∧ 0 ≤ p.2.1 ∧ p.2.1 < 7 := by
      simp only [rescue_possibilities, List.mem_cons, List.not_mem_nil, or_false] at hp
      rcases hp with rfl | rfl | rfl | rfl <;> norm_num
    exact validate_move_err_invalid s t loc.1 loc.2 p.1 p.2.1 hteam hwf hdir
      hl1 hl2 hl3 hl4 hb.1 hb.2.1 hb.2.2.1 hb.2.2.2 hv
  have hloop := rescue_loop_ok_iff s loc.1 loc.2 rescue_possibilities hinv
  unfold Halali.validate_rescue
  rw [hget]
  cases hca : cellAt s.cards loc.1 loc.2 with
  | none => simp
  | some c =>
    dsimp only
    by_cases hteamc : c.kind.teamOf = some s.to_play
    · rw [if_neg (not_not_intro hteamc)]
      rw [hloop]
      rw [hplay] at hteamc
      simp [hteamc]
    · rw [if_pos hteamc]
      rw [hplay] at hteamc
      simp [hteamc]

/-- An Endgame state: animals' fox face-up at (1,3), face-down trees sitting
on both middle-row exit cells (0,3) and (6,3). -/
def sExitBlocked : Halali :=
  ⟨Team.animals, TeamSel.ofTeam Team.animals,
    setCell
      (setCell (setCell emptyGrid 1 3 (some ⟨Kind.fox, Facing.up, none, false⟩))
        0 3 (some ⟨Kind.tree, Facing.down, some "oak", false⟩))
      6 3 (some ⟨Kind.tree, Facing.down, some "spruce", false⟩),
    0, 0, some 5, 0⟩

/-- C4 counterexample: the claim's characterization — path/slow/ownership
checks with the capture branch skipped because "exits hold no card" — calls
this rescue legal (clear path from (1,3) to the left exit), but the engine
rejects it: the exit cells are on-board cells, here occupied by face-down
trees, and the move validation's capture branch does run against them. -/
theorem c4_counterexample_occupied_exit_cell :
    RescueLegalSpecClaim sExitBlocked.cards Team.animals 1 3 ∧
    sExitBlocked.validate_rescue 1 3 false =
      .error (.invalidMove "Can't escape from this place") := by
  decide

theorem c4_amended_rescue_runs_full_move_validation_witness :
    sRevealPhaseRescue.validate_rescue 0 3 false = .ok () := by
  have h := c4_amended_rescue_runs_full_move_validation sRevealPhaseRescue
    Team.animals (0, 3) rfl rfl (by decide) (by decide) (by decide) (by decide)
    (by decide) (by decide)
  exact h.mpr (by decide)

theorem eats_irrefl : ∀ k : Kind, k ∉ k.eats := by
  decide

theorem cellWeight_le_one (o : Option Card) : cellWeight o ≤ 1 := by
  rcases o with _ | c
  · simp [cellWeight]
  · simp only [cellWeight]
    split <;> omega

theorem getCell_setCell_other {g : Grid} {x1 y1 x2 y2 : Int} {o1 o2 : Option Card}
    (h1 : getCell g x1 y1 = .ok o1) (h2 : getCell g x2 y2 = .ok o2) (v : Option Card) :
    getCell (setCell g x2 y2 v) x1 y1 = .ok o1 ∨
      (getCell (setCell g x2 y2 v) x1 y1 = .ok v ∧ o1 = o2) := by
  obtain ⟨i1, row1, j1, hi1, hrow1, hj1, hcell1⟩ := getCell_ok_parts h1
  obtain ⟨i2, row2, j2, hi2, hrow2, hj2, hcell2⟩ := getCell_ok_parts h2
  rw [setCell_of_parts hi2 hrow2 hj2 v]
  have hlen : (g.set i2 (row2.set j2 v)).length = g.length := List.length_set _ _ _
  unfold getCell pyGet
  simp only [bind, Except.bind, hlen, hi1]
  by_cases hii : i1 = i2
  · subst hii
    have hroweq : row1 = row2 := by
      have h3 := hrow1.symm.trans hrow2
      injection h3
    subst hroweq
    have hget2 : (g.set i1 (row1.set j2 v)).get? i1 = some (row1.set j2 v) := by
      rw [List.get?_set_eq]
      rw [hrow1]
      rfl
    simp only [hget2]
    have hrl : (row1.set j2 v).length = row1.length := List.length_set _ _ _
    simp only [hrl, hj1]
    by_cases hjj : j1 = j2
    · subst hjj
      have hcv : (row1.set j1 v).get? j1 = some v := by
        rw [List.get?_set_eq, hcell1]
        rfl
      simp only [hcv]
      right
      refine ⟨trivial, ?_⟩
      have h3 := hcell1.symm.trans hcell2
      injection h3
    · have hcv : (row1.set j2 v).get? j1 = some o1 := by
        rw [List.get?_set_ne _ _ (fun h => hjj h.symm)]
        exact hcell1
      simp only [hcv]
      exact Or.inl trivial
  · have hget2 : (g.set i2 (row2.set j2 v)).get? i1 = some row1 := by
      rw [List.get?_set_ne _ _ (fun h => hii h.symm)]
      exact hrow1
    simp only [hget2, hj1, hcell1]
    exact Or.inl trivial

theorem validate_move_tail_ok_cells {g : Grid} {cx cy tx ty : Int} {team : TeamSel}
    {moving : String} {dist : Int}
    (h : validate_move_tail g cx cy tx ty team moving dist = .ok ()) :
    ∃ c, getCell g cx cy = .ok (some c) ∧ c.facing = Facing.up ∧
      ∃ o, getCell g tx ty = .ok o ∧
        (o = none ∨ ∃ tc, o = some tc ∧ tc.facing = Facing.up ∧ tc.kind ∈ c.kind.eats) := by
  unfold validate_move_tail at h
  split at h
  next e heq => exact Except.noConfusion h
  next heq => exact Except.noConfusion h
  next card heq =>
    refine ⟨card, heq, ?_⟩
    by_cases h1 : card.kind.slow = true ∧ 1 < dist
    · rw [if_pos h1] at h
      exact Except.noConfusion h
    · rw [if_neg h1] at h
      by_cases h2 : card.kind.immovable = true
      · rw [if_pos h2] at h
        exact Except.noConfusion h
      · rw [if_neg h2] at h
        split at h
        · exact Except.noConfusion h
        · rename_i tm2
          by_cases h3 : MOVABLE_FOR tm2 card.kind = true
          · rw [if_neg (not_not_intro h3)] at h
            by_cases h4 : card.facing = Facing.up
            · rw [if_neg (not_not_intro h4)] at h
              refine ⟨h4, ?_⟩
              split at h
              next e2 heq4 => exact Except.noConfusion h
              next heq4 => exact ⟨none, heq4, Or.inl rfl⟩
              next target heq4 =>
                by_cases h5 : target.facing = Facing.up
                · rw [if_neg (not_not_intro h5)] at h
                  by_cases h6 : target.kind ∈ card.kind.eats
                  · exact ⟨some target, heq4, Or.inr ⟨target, rfl, h5, h6⟩⟩
                  · rw [if_pos h6] at h
                    exact Except.noConfusion h
                · rw [if_pos h5] at h
                  exact Except.noConfusion h
            · rw [if_pos h4] at h
              exact Except.noConfusion h
          · rw [if_pos h3] at h
            exact Except.noConfusion h

theorem validate_move_ok_cells {s : Halali} {cx cy tx ty : Int} {fe : Bool}
    (h : s.validate_move cx cy tx ty fe = .ok ()) :
    ∃ c, getCell s.cards cx cy = .ok (some c) ∧ c.facing = Facing.up ∧
      ∃ o, getCell s.cards tx ty = .ok o ∧
        (o = none ∨ ∃ tc, o = some tc ∧ tc.facing = Facing.up ∧ tc.kind ∈ c.kind.eats) := by
  unfold Halali.validate_move at h
  split at h
  · exact Except.noConfusion h
  · split at h
    · exact Except.noConfusion h
    · split at h
      next e heq => exact Except.noConfusion h
      next team heq =>
        split at h
        · split at h
          next e heq2 => exact Except.noConfusion h
          next heq2 => exact validate_move_tail_ok_cells h
        · split at h
          next e heq2 => exact Except.noConfusion h
          next heq2 => exact validate_move_tail_ok_cells h

theorem reveal_step_counts (s : Halali) (loc : Int × Int) (fe : Bool)
    (h : (s.attempt_reveal loc fe).1 = .ok ()) :
    (s.attempt_reveal loc fe).2.tiles_left = s.tiles_left - 1 ∧
    countFaceDown (s.attempt_reveal loc fe).2.cards = countFaceDown s.cards - 1 ∧
    1 ≤ countFaceDown s.cards := by
  rcases attempt_reveal_cases s loc fe with ⟨_, c, hc, hcd, h2⟩ | ⟨h1, _⟩
  · have hw1 : cellWeight (some c) = 1 := by simp [cellWeight, hcd]
    have hcnt := countFaceDown_set hc (some { c with facing := Facing.up })
    have hw0 : cellWeight (some { c with facing := Facing.up }) = 0 := by
      simp [cellWeight]
    have hle := cellWeight_le_countFaceDown hc
    rw [hw1] at hle
    refine ⟨?_, ?_, hle⟩
    · rw [h2, swap_teams_tiles_left]
    · rw [h2, swap_teams_cards]
      rw [show ({ s with
          tiles_left := s.tiles_left - 1,
          cards := setCell s.cards loc.1 loc.2
            (some { c with facing := Facing.up }) } : Halali).cards =
        setCell s.cards loc.1 loc.2 (some { c with facing := Facing.up }) from rfl]
      rw [hcnt, hw1, hw0]
      omega
  · exact absurd h h1

theorem move_step_counts (s : Halali) (a b : Int × Int) (fe : Bool)
    (h : (s.attempt_move a b fe).1 = .ok ()) :
    (s.attempt_move a b fe).2.tiles_left = s.tiles_left ∧
    countFaceDown (s.attempt_move a b fe).2.cards = countFaceDown s.cards := by
  rcases attempt_move_cases s a b fe with ⟨_, hv, o, ho, mc, hmc, h2⟩ | ⟨h1, _⟩
  · obtain ⟨c, hcs, hcup, o2, ho2, hcap⟩ := validate_move_ok_cells hv
    have hmc2 : mc = some c := by
      have h3 := hmc.symm.trans hcs
      injection h3
    have ho22 : o2 = o := by
      have h3 := ho2.symm.trans ho
      injection h3
    subst hmc2
    rw [ho22] at hcap
    constructor
    · rw [h2, swap_teams_tiles_left]
      cases o <;> simp
    · rw [h2, swap_teams_cards]
      have hcards : ∀ base : Halali,
          ({ base with
              cards := setCell (setCell s.cards b.1 b.2 (some c)) a.1 a.2 none } :
            Halali).cards =
          setCell (setCell s.cards b.1 b.2 (some c)) a.1 a.2 none := fun _ => rfl
      rw [hcards]
      have hwc : cellWeight (some c) = 0 := by simp [cellWeight, hcup]
      have hwo : cellWeight o = 0 := by
        rcases hcap with rfl | ⟨tc, rfl, htf, _⟩
        · rfl
        · simp [cellWeight, htf]
      have hstep1 := countFaceDown_set ho (some c)
      rcases getCell_setCell_other hcs ho (some c) with hread | ⟨hread, heq⟩
      · have hstep2 := countFaceDown_set hread none
        rw [hstep2, hstep1, hwc, hwo]
        simp [cellWeight]
      · exfalso
        rcases hcap with hnone | ⟨tc, htc, _, hte⟩
        · rw [hnone] at heq
          exact Option.noConfusion heq
        · rw [htc] at heq
          injection heq with heqc
          rw [← heqc] at hte
          exact eats_irrefl c.kind hte
  · exact absurd h h1

theorem rescue_step_counts (s : Halali) (loc : Int × Int) (fe : Bool)
    (h : (s.attempt_rescue loc fe).1 = .ok ()) :
    (s.attempt_rescue loc fe).2.tiles_left = s.tiles_left ∧
    countFaceDown (s.attempt_rescue loc fe).2.cards ≤ countFaceDown s.cards := by
  rcases attempt_rescue_cases s loc fe with ⟨_, _, c, hc, _, h2⟩ | ⟨h1, _⟩
  · refine ⟨?_, ?_⟩
    · rw [h2, swap_teams_tiles_left, addPoints_tiles_left]
    · rw [h2, swap_teams_cards, addPoints_cards]
      rw [show ({ s with cards := setCell s.cards loc.1 loc.2 none } : Halali).cards =
        setCell s.cards loc.1 loc.2 none from rfl]
      have hcnt := countFaceDown_set hc none
      have hw := cellWeight_nonneg (some c)
      rw [hcnt]
      simp only [cellWeight]
      omega
  · exact absurd h h1

theorem rowWeight_eq_filter (row : List (Option Card)) :
    (row.map cellWeight).sum =
      ((((row.filterMap id).filter fun c => decide (c.facing = Facing.down)).length : Nat) : Int) := by
  induction row with
  | nil => rfl
  | cons cell rest ih =>
    rcases cell with _ | c
    · simp only [List.map_cons, List.sum_cons]
      rw [show List.filterMap id (none :: rest) = List.filterMap id rest from rfl]
      rw [show cellWeight none = 0 from rfl, ih]
      ring
    · simp only [List.map_cons, List.sum_cons]
      rw [show List.filterMap id (some c :: rest) = c :: List.filterMap id rest from rfl]
      rw [List.filter_cons]
      by_cases hf : c.facing = Facing.down
      · rw [show cellWeight (some c) = 1 from by simp [cellWeight, hf], ih]
        rw [if_pos (by simp [hf]), List.length_cons]
        push_cast
        ring
      · rw [show cellWeight (some c) = 0 from by simp [cellWeight, hf], ih]
        rw [if_neg (by simp [hf])]
        ring

theorem countFaceDown_eq_filter (g : Grid) :
    countFaceDown g =
      ((((g.flatten.filterMap id).filter fun c =>
        decide (c.facing = Facing.down)).length : Nat) : Int) := by
  induction g with
  | nil => rfl
  | cons row rest ih =>
    rw [show countFaceDown (row :: rest) =
      (row.map cellWeight).sum + countFaceDown rest from by simp [countFaceDown]]
    rw [List.flatten_cons, List.filterMap_append, List.filter_append, List.length_append]
    rw [rowWeight_eq_filter, ih]
    push_cast
    ring

theorem fresh_deal_counts {s : Halali} (h : IsFreshDeal s) :
    countFaceDown s.cards = 48 ∧ s.tiles_left = 48 := by
  obtain ⟨_, _, _, _, _, htiles, _, _, _, hlen48, hdown, _, _⟩ := h
  refine ⟨?_, htiles⟩
  rw [countFaceDown_eq_filter]
  have hfil : (s.cards.flatten.filterMap id).filter
      (fun c => decide (c.facing = Facing.down)) = s.cards.flatten.filterMap id :=
    List.filter_eq_self.mpr fun c hc => by rw [hdown c hc]; rfl
  rw [hfil, hlen48]
  rfl

theorem inv_step {s s2 : Halali}
    (hinv : countFaceDown s.cards ≤ s.tiles_left ∧ 0 ≤ s.tiles_left)
    (hstep : Steps s s2) :
    countFaceDown s2.cards ≤ s2.tiles_left ∧ 0 ≤ s2.tiles_left := by
  obtain ⟨o, fe, hok, heq⟩ := hstep
  cases o with
  | reveal loc =>
    simp only [applyOp] at hok heq
    obtain ⟨ht, hcnt, h1⟩ := reveal_step_counts s loc fe hok
    rw [← heq, ht, hcnt]
    omega
  | move a b =>
    simp only [applyOp] at hok heq
    obtain ⟨ht, hcnt⟩ := move_step_counts s a b fe hok
    rw [← heq, ht, hcnt]
    omega
  | rescue loc =>
    simp only [applyOp] at hok heq
    obtain ⟨ht, hcnt⟩ := rescue_step_counts s loc fe hok
    rw [← heq, ht]
    omega

/-- C7 amended: in every state reachable from a fresh deal, tiles_left is an
upper bound on the number of face-down cards (equality can be broken, because
a still-face-down card standing on an exit cell can be rescued without
touching tiles_left) and tiles_left is never negative; tiles_left decreases
by exactly 1 on each successful reveal and is unchanged by successful moves
and rescues; and once tiles_left is 0 it stays 0. -/
theorem c7_amended_tiles_left_bounds_face_down_count :
    ∀ s0 s : Halali, IsFreshDeal s0 → Reachable s0 s →
      countFaceDown s.cards ≤ s.tiles_left ∧
      0 ≤ s.tiles_left ∧
      (∀ loc fe, (s.attempt_reveal loc fe).1 = .ok () →
        (s.attempt_reveal loc fe).2.tiles_left = s.tiles_left - 1) ∧
      (∀ a b fe, (s.attempt_move a b fe).1 = .ok () →
        (s.attempt_move a b fe).2.tiles_left = s.tiles_left) ∧
      (∀ loc fe, (s.attempt_rescue loc fe).1 = .ok () →
        (s.attempt_rescue loc fe).2.tiles_left = s.tiles_left) ∧
      (s.tiles_left = 0 → ∀ s2, Steps s s2 → s2.tiles_left = 0) := by
  intro s0 s h0 hreach
  have hbase : countFaceDown s0.cards ≤ s0.tiles_left ∧ 0 ≤ s0.tiles_left := by
    obtain ⟨hc, ht⟩ := fresh_deal_counts h0
    rw [hc, ht]
    exact ⟨le_refl _, by norm_num⟩
  have hinv : countFaceDown s.cards ≤ s.tiles_left ∧ 0 ≤ s.tiles_left := by
    induction hreach with
    | refl => exact hbase
    | tail hab hbc ih => exact inv_step ih hbc
  refine ⟨hinv.1, hinv.2, fun loc fe h => (reveal_step_counts s loc fe h).1,
    fun a b fe h => (move_step_counts s a b fe h).1,
    fun loc fe h => (rescue_step_counts s loc fe h).1, ?_⟩
  intro htz s2 hstep
  obtain ⟨o, fe, hok, heq⟩ := hstep
  cases o with
  | reveal loc =>
    exfalso
    simp only [applyOp] at hok
    have h1 := (reveal_step_counts s loc fe hok).2.2
    omega
  | move a b =>
    simp only [applyOp] at hok heq
    rw [← heq, (move_step_counts s a b fe hok).1]
    exact htz
  | rescue loc =>
    simp only [applyOp] at hok heq
    rw [← heq, (rescue_step_counts s loc fe hok).1]
    exact htz

def fdc (k : Kind) : Option Card := some ⟨k, Facing.down, none, false⟩

def fdh : Option Card := some ⟨Kind.hunter, Facing.down, some "up", true⟩

def fdt : Option Card := some ⟨Kind.tree, Facing.down, some "oak", false⟩

def sFreshDeal : Halali :=
  ⟨Team.animals, TeamSel.both,
    [[fdc .fox, fdc .fox, fdc .fox, fdc .fox, fdc .fox, fdc .pheasant, fdc .bear],
     [fdc .bear, fdc .duck, fdc .duck, fdc .duck, fdc .duck, fdc .duck, fdc .duck],
     [fdc .duck, fdc .pheasant, fdc .pheasant, fdc .pheasant, fdc .pheasant, fdc .pheasant, fdc .pheasant],
     [fdc .fox, fdc .pheasant, fdh, none, fdh, fdh, fdh],
     [fdh, fdh, fdh, fdh, fdc .lumberjack, fdc .lumberjack, fdt],
     [fdt, fdt, fdt, fdt, fdt, fdt, fdt],
     [fdt, fdt, fdt, fdt, fdt, fdt, fdt]],
    0, 0, none, 48⟩

/-- C7 counterexample: from a fresh deal in which a (still face-down) fox was
dealt onto the exit cell (3,0), one successful rescue step yields a reachable
state whose tiles_left (48) no longer equals its number of face-down cards
(47): validate_rescue accepts a card standing on an exit cell without looking
at its facing, and attempt_rescue never touches tiles_left. -/
theorem c7_counterexample_rescue_of_face_down_card_breaks_equality :
    IsFreshDeal sFreshDeal ∧
    Steps sFreshDeal (sFreshDeal.attempt_rescue (3, 0) false).2 ∧
    ¬((sFreshDeal.attempt_rescue (3, 0) false).2.tiles_left =
      countFaceDown (sFreshDeal.attempt_rescue (3, 0) false).2.cards) :=
  ⟨by decide, ⟨Op.rescue (3, 0), false, by decide, rfl⟩, by decide⟩

theorem c7_amended_tiles_left_bounds_face_down_count_witness :
    IsFreshDeal sFreshDeal ∧
    countFaceDown sFreshDeal.cards ≤ sFreshDeal.tiles_left ∧
    0 ≤ sFreshDeal.tiles_left :=
  have h := c7_amended_tiles_left_bounds_face_down_count sFreshDeal sFreshDeal
    (by decide) Relation.ReflTransGen.refl
  ⟨by decide, h.1, h.2.1⟩
